import Mathlib

/-!
Verification of the IFCore orchestrator (`src/orchestrator.py`).

The orchestrator discovers `checker_*.py` modules in a tools directory,
indexes their `check_*` functions, executes them against an IFC model,
validates each returned result record, and aggregates a run report.

Shallow embedding: Python dicts become association lists, the mutable
`CheckerOrchestrator` object becomes explicit state passing, exceptions
become `Except`, and the filesystem at discovery time becomes an explicit
`DirState` argument.  All definitions are executable.
-/

/-- Python values occurring in result records: `None`, strings, integers. -/
inductive Val where
  | vnone : Val
  | str (s : String) : Val
  | int (n : Int) : Val
deriving DecidableEq, Repr

/-- A Python dict with string keys, as an association list (first match wins,
keys are unique in actual Python dicts). -/
abbrev Dict := List (String × Val)

/-- Lookup in an insertion-ordered dict (Python `d.get(k)`; `none` = absent). -/
def dictFind {κ α : Type} [BEq κ] (d : List (κ × α)) (k : κ) : Option α :=
  match d.find? (fun p => p.1 == k) with
  | some p => some p.2
  | none => none

/-- Python `k in d`. -/
def dictHasKey {κ α : Type} [BEq κ] (d : List (κ × α)) (k : κ) : Bool :=
  d.any (fun p => p.1 == k)

/-- Python `d[k] = v`: replaces the value in place if the key exists,
otherwise appends the new binding at the end (dict insertion order). -/
def dictSet {κ α : Type} [BEq κ] (d : List (κ × α)) (k : κ) (v : α) : List (κ × α) :=
  if d.any (fun p => p.1 == k) then
    d.map (fun p => if p.1 == k then (k, v) else p)
  else
    d ++ [(k, v)]

/-- Python `d.get(k)` on a result record. -/
def pyGet (d : Dict) (k : String) : Option Val := dictFind d k

/-- Python `k in d` on a result record. -/
def pyHasKey (d : Dict) (k : String) : Bool := dictHasKey d k

/-- Python `d[k] = v` on a result record. -/
def pySet (d : Dict) (k : String) (v : Val) : Dict := dictSet d k v

/-- Keys of a dict, in insertion order (Python `list(d.keys())`). -/
def pyKeys (d : Dict) : List String := d.map (fun p => p.1)

/-- The nine required keys of a result record (`required_keys` in `run`). -/
def requiredKeys : List String :=
  ["element_id", "element_type", "element_name",
   "element_name_long", "check_status", "actual_value",
   "required_value", "comment", "log"]

/-- Does the needle character list occur at the front of the haystack? -/
def leadsWith : List Char → List Char → Bool
  | [], _ => true
  | _ :: _, [] => false
  | a :: as, b :: bs => a == b && leadsWith as bs

/-- Does the needle character list occur anywhere in the haystack?
(Python `needle in hay` on strings.) -/
def charsContain (needle : List Char) : List Char → Bool
  | [] => needle.isEmpty
  | b :: bs => leadsWith needle (b :: bs) || charsContain needle bs

/-- Python `s.startswith(pre)`. -/
def strBegins (s pre : String) : Bool := leadsWith pre.data s.data

/-- Python `s.endswith(suf)`. -/
def strEnds (s suf : String) : Bool := leadsWith suf.data.reverse s.data.reverse

/-- Python `s.lower()`. -/
def strLower (s : String) : String := String.mk (s.data.map Char.toLower)

/-- Python `needle.lower() in hay.lower()`: case-insensitive substring test. -/
def strContainsCI (hay needle : String) : Bool :=
  charsContain (strLower needle).data (strLower hay).data

/-- Lexicographic (code-point) comparison of character lists; the order used
by Python `sorted` on path strings. -/
def charListLe : List Char → List Char → Bool
  | [], _ => true
  | _ :: _, [] => false
  | a :: as, b :: bs => if a = b then charListLe as bs else decide (a < b)

/-- Lexicographic string order, `a <= b` in Python. -/
def strLe (a b : String) : Bool := charListLe a.data b.data

/-- Insert into a sorted list (helper of the sorting function). -/
def insertSorted {α : Type} (le : α → α → Bool) (a : α) : List α → List α
  | [] => [a]
  | b :: bs => if le a b then a :: b :: bs else b :: insertSorted le a bs

/-- Stable sort by `le` (Python `sorted`). -/
def sortBy {α : Type} (le : α → α → Bool) : List α → List α
  | [] => []
  | a :: as => insertSorted le a (sortBy le as)

/-- One element of the list a checker returned: a dict or some other value. -/
inductive RuleItem where
  | notDict (tyName : String) : RuleItem
  | rdict (d : Dict) : RuleItem
deriving Inhabited

/-- Outcome of calling one checker function on a model: it either raises an
exception, or returns some Python value. -/
inductive RuleOutcome where
  | raises (msg : String) : RuleOutcome
  | notList (tyName : String) : RuleOutcome
  | retList (items : List RuleItem) : RuleOutcome
deriving Inhabited

/-- Opaque handle standing for a loaded `ifcopenshell.file` model. -/
structure IfcFile where
  modelId : Nat
deriving DecidableEq, Repr

/-- The `model` argument of `run` as the caller supplies it: either an actual
`ifcopenshell.file` instance or a value of some other Python type. -/
inductive ModelArg where
  | ifcFile (f : IfcFile) : ModelArg
  | notIfc (tyName : String) : ModelArg

/-- The `**kwargs` configuration mapping forwarded to every checker. -/
abbrev Config := List (String × Val)

/-- A checker function: a Python callable taking the model and kwargs. -/
abbrev Rule := IfcFile → Config → RuleOutcome

/-- A member of a loaded module namespace (`inspect.getmembers` view):
either a callable or some non-callable binding. -/
inductive Member where
  | callable (r : Rule) : Member
  | nonCallable : Member

/-- What loading one file yields: a load-time error, or a module namespace. -/
inductive LoadResult where
  | loadError (msg : String) : LoadResult
  | loaded (members : List (String × Member)) : LoadResult

/-- One file in the tools directory at discovery time. -/
structure FileEntry where
  name : String
  loadResult : LoadResult

/-- The tools directory as `discover` observes it: `none` when the directory
does not exist, otherwise the list of its files. -/
abbrev DirState := Option (List FileEntry)

/-- The mutable state of a `CheckerOrchestrator` instance (`__init__`). -/
structure CheckerOrchestrator where
  toolsDir : String
  checkers : List (String × List (String × Rule))
  loadedModules : List String
  executionLog : List String

/-- Fresh orchestrator: `CheckerOrchestrator(tools_dir)`. -/
def mkOrchestrator (toolsDir : String) : CheckerOrchestrator :=
  { toolsDir := toolsDir, checkers := [], loadedModules := [], executionLog := [] }

/-- The glob `checker_*.py` together with the template exclusion. -/
def globMatch (name : String) : Bool :=
  strBegins name "checker_" && strEnds name ".py" && name != "checker_template.py"

/-- The sorted list of checker files `discover` iterates over. -/
def globSorted (files : List FileEntry) : List FileEntry :=
  sortBy (fun a b : FileEntry => strLe a.name b.name)
    (files.filter (fun f => globMatch f.name))

/-- The `check_*` functions of a loaded module namespace, in member order
(`name.startswith("check_") and callable(obj)`). -/
def checkFunctions (members : List (String × Member)) : List (String × Rule) :=
  members.filterMap (fun p =>
    match p.2 with
    | Member.callable r => if strBegins p.1 "check_" then some (p.1, r) else none
    | Member.nonCallable => none)

/-- Trace line for a module contributing functions. -/
def foundFunctionsLine (name : String) (cfs : List (String × Rule)) : String :=
  "  ✓ " ++ name ++ ": Found " ++ toString cfs.length ++ " function(s) - " ++
    String.intercalate ", " (cfs.map (fun p => p.1))

/-- The per-file loop of `discover`: loads each file, records its `check_*`
functions, and aborts on the first file that fails to load.  Returns the
mutated orchestrator and the error message when a load failed. -/
def discoverLoop (o : CheckerOrchestrator) : List FileEntry → CheckerOrchestrator × Option String
  | [] => (o, none)
  | f :: rest =>
    match f.loadResult with
    | LoadResult.loadError msg =>
      ({ o with executionLog := o.executionLog ++ ["  ✗ " ++ f.name ++ ": " ++ msg] },
       some ("Failed to load " ++ f.name ++ ": " ++ msg))
    | LoadResult.loaded members =>
      let o1 := { o with loadedModules :=
        if o.loadedModules.any (fun n => n == f.name) then o.loadedModules
        else o.loadedModules ++ [f.name] }
      let cfs := checkFunctions members
      if cfs.isEmpty then
        discoverLoop { o1 with executionLog :=
          o1.executionLog ++ ["  ⚠️  " ++ f.name ++ ": No check_* functions found"] } rest
      else
        discoverLoop { o1 with
          checkers := dictSet o1.checkers f.name cfs,
          executionLog := o1.executionLog ++ [foundFunctionsLine f.name cfs] } rest

/-- State of the orchestrator after the scan trace lines of `discover`. -/
def afterScan (o : CheckerOrchestrator) (cf : List FileEntry) : CheckerOrchestrator :=
  { o with executionLog := o.executionLog ++
      ["Scanning tools directory: " ++ o.toolsDir,
       "Found " ++ toString cf.length ++ " checker file(s)"] }

/-- `CheckerOrchestrator.discover`: scans the tools directory, loads every
`checker_*.py` file (template excluded) in sorted order, and registers the
`check_*` functions of each.  Raises `OrchestratorError` when the directory
is missing or a file fails to load. -/
def discover (o : CheckerOrchestrator) (dir : DirState) :
    CheckerOrchestrator × Except String (List (String × List String)) :=
  match dir with
  | none => (o, Except.error ("Tools directory not found: " ++ o.toolsDir))
  | some files =>
    let pr := discoverLoop (afterScan o (globSorted files)) (globSorted files)
    match pr.2 with
    | some msg => (pr.1, Except.error msg)
    | none =>
      (pr.1, Except.ok (pr.1.checkers.map (fun m => (m.1, m.2.map (fun p => p.1)))))

/-- Per-checker detail entry of the run summary. -/
structure Detail where
  checker : String
  status : String
  resultCount : Option Nat
  error : Option String
deriving DecidableEq, Repr

/-- The summary block of a run report. -/
structure Summary where
  total_checkers : Nat
  successful_checkers : Nat
  failed_checkers : Nat
  total_results : Nat
  checker_details : List Detail
deriving DecidableEq, Repr

/-- The dictionary `run` returns. -/
structure Report where
  results : List Dict
  summary : Summary
  log : String
deriving DecidableEq, Repr

/-- The 70-character separator line of the execution log. -/
def sep70 : String := String.mk (List.replicate 70 '=')

/-- `f"{filename}::{func_name}"`. -/
def fullName (filename fname : String) : String := filename ++ "::" ++ fname

/-- The filter guard of the checker loop: Python
`if checker_filter and checker_filter.lower() not in filename.lower(): continue`. -/
def skipByFilter (checker_filter : Option String) (filename : String) : Bool :=
  match checker_filter with
  | none => false
  | some f => f != "" && !(strContainsCI filename f)

/-- Error message for a checker returning a non-list value. -/
def msgNotList (ty : String) : String :=
  "check_* function must return a list, got " ++ ty

/-- Error message for a non-dict element of a checker's returned list. -/
def msgNotDict (i : Nat) (ty : String) : String :=
  "Result " ++ toString i ++ " is not a dict: " ++ ty

/-- Error message for a record missing required keys. -/
def msgMissing (i : Nat) (missing : List String) : String :=
  "Result " ++ toString i ++ " missing keys: " ++ String.intercalate ", " missing

/-- The per-record validation/tagging loop of `run`: walks the returned list,
validates each element, tags provenance, and stops at the first invalid
element.  Returns the records admitted so far (they were already appended to
`all_results` when the exception is raised) and the error message, if any. -/
def processItems (filename fname : String) : Nat → List RuleItem → List Dict × Option String
  | _, [] => ([], none)
  | i, RuleItem.notDict ty :: _ => ([], some (msgNotDict i ty))
  | i, RuleItem.rdict d :: rest =>
    let missing := requiredKeys.filter (fun k => !pyHasKey d k)
    if missing.isEmpty then
      let tagged := pySet (pySet d "_checker_file" (Val.str filename))
        "_checker_function" (Val.str fname)
      let pr := processItems filename fname (i + 1) rest
      (tagged :: pr.1, pr.2)
    else
      ([], some (msgMissing i missing))

/-- Mutable loop state of `run` (`all_results`, `execution_stats`, the log). -/
structure RunState where
  allResults : List Dict
  total : Nat
  successful : Nat
  failed : Nat
  details : List Detail
  log : List String

/-- One iteration of the checker loop of `run`. -/
def runStep (model : IfcFile) (cfg : Config) (checker_filter : Option String)
    (st : RunState) (p : String × String × Rule) : RunState :=
  let filename := p.1
  let fname := p.2.1
  let rule := p.2.2
  if skipByFilter checker_filter filename then st
  else
    let nm := fullName filename fname
    let log1 := st.log ++ ["\n📋 Running: " ++ nm]
    match rule model cfg with
    | RuleOutcome.raises msg =>
      { st with
        total := st.total + 1
        failed := st.failed + 1
        log := log1 ++ ["  ✗ ERROR: " ++ msg]
        details := st.details ++ [⟨nm, "failed", none, some msg⟩] }
    | RuleOutcome.notList ty =>
      { st with
        total := st.total + 1
        failed := st.failed + 1
        log := log1 ++ ["  ✗ ERROR: " ++ msgNotList ty]
        details := st.details ++ [⟨nm, "failed", none, some (msgNotList ty)⟩] }
    | RuleOutcome.retList items =>
      if items.isEmpty then
        { st with
          total := st.total + 1
          successful := st.successful + 1
          log := log1 ++ ["  ⚠️  No results returned"]
          details := st.details ++ [⟨nm, "success", some 0, none⟩] }
      else
        let pr := processItems filename fname 0 items
        match pr.2 with
        | some msg =>
          { st with
            total := st.total + 1
            failed := st.failed + 1
            allResults := st.allResults ++ pr.1
            log := log1 ++ ["  ✗ ERROR: " ++ msg]
            details := st.details ++ [⟨nm, "failed", none, some msg⟩] }
        | none =>
          { st with
            total := st.total + 1
            successful := st.successful + 1
            allResults := st.allResults ++ pr.1
            log := log1 ++ ["  ✓ " ++ toString items.length ++ " result(s)"]
            details := st.details ++ [⟨nm, "success", some items.length, none⟩] }

/-- The registry flattened to `(filename, func_name, func)` triples, in the
nested iteration order of the checker loop. -/
def flatPairs (checkers : List (String × List (String × Rule))) :
    List (String × String × Rule) :=
  checkers.flatMap (fun m => m.2.map (fun f => (m.1, f.1, f.2)))

/-- `CheckerOrchestrator.run`: precondition checks, the checker loop, and the
assembly of the run report. -/
def run (o : CheckerOrchestrator) (model : ModelArg) (checker_filter : Option String)
    (cfg : Config) : CheckerOrchestrator × Except String Report :=
  if o.checkers.isEmpty then
    (o, Except.error "No checkers discovered. Call discover() first.")
  else
    match model with
    | ModelArg.notIfc _ => (o, Except.error "model must be an ifcopenshell.file object")
    | ModelArg.ifcFile m =>
      let log0 := o.executionLog ++
        ["\n" ++ sep70, "ORCHESTRATOR EXECUTION START", sep70]
      let st0 : RunState := ⟨[], 0, 0, 0, [], log0⟩
      let st := (flatPairs o.checkers).foldl (runStep m cfg checker_filter) st0
      let finalLog := st.log ++
        ["\n" ++ sep70,
         "ORCHESTRATOR EXECUTION COMPLETE",
         "  Checkers run: " ++ toString st.successful ++ "/" ++ toString st.total,
         "  Results collected: " ++ toString st.allResults.length,
         sep70]
      ({ o with executionLog := finalLog },
       Except.ok
         { results := st.allResults,
           summary := ⟨st.total, st.successful, st.failed,
                       st.allResults.length, st.details⟩,
           log := String.intercalate "\n" finalLog })

/-- `CheckerOrchestrator.get_summary_by_status`:
`summary[status] = summary.get(status, 0) + 1` over all records, where
`status = result.get("check_status", "unknown")`. -/
def get_summary_by_status (results : List Dict) : List (Val × Nat) :=
  results.foldl (fun summary r =>
    let status := (pyGet r "check_status").getD (Val.str "unknown")
    dictSet summary status ((dictFind summary status).getD 0 + 1)) []

/-- `CheckerOrchestrator.filter_results`. -/
def filter_results (results : List Dict) (status : Option String)
    (element_type : Option String) : List Dict :=
  let f1 := match status with
    | some s =>
      if s == "" then results
      else results.filter (fun r => pyGet r "check_status" == some (Val.str s))
    | none => results
  match element_type with
  | some s =>
    if s == "" then f1
    else f1.filter (fun r => pyGet r "element_type" == some (Val.str s))
  | none => f1

/-! Derived views of the code, used to state the claims. -/

/-- A file that loads without error. -/
def isLoadable (f : FileEntry) : Bool :=
  match f.loadResult with
  | LoadResult.loaded _ => true
  | LoadResult.loadError _ => false

/-- The registry contribution of one file: its name and `check_*` functions,
or `none` when it fails to load or contributes no functions. -/
def ruleBearing (f : FileEntry) : Option (String × List (String × Rule)) :=
  match f.loadResult with
  | LoadResult.loadError _ => none
  | LoadResult.loaded members =>
    let cfs := checkFunctions members
    if cfs.isEmpty then none else some (f.name, cfs)

/-- The effect of processing one file on the `checkers` registry dict. -/
def regStep (d : List (String × List (String × Rule))) (f : FileEntry) :
    List (String × List (String × Rule)) :=
  match ruleBearing f with
  | some kv => dictSet d kv.1 kv.2
  | none => d

/-- The registry as observable data: module filenames with their rule names. -/
def registryNames (o : CheckerOrchestrator) : List (String × List String) :=
  o.checkers.map (fun m => (m.1, m.2.map (fun p => p.1)))

/-- The records of one checker invocation that the engine admits into
`all_results`: all validated records up to the first invalid one, already
provenance-tagged; empty when the rule raises or returns a non-list. -/
def keptRecords (filename fname : String) (oc : RuleOutcome) : List Dict :=
  match oc with
  | RuleOutcome.raises _ => []
  | RuleOutcome.notList _ => []
  | RuleOutcome.retList items => (processItems filename fname 0 items).1

/-- The error message a checker invocation produces, when it fails. -/
def outcomeErr (filename fname : String) (oc : RuleOutcome) : Option String :=
  match oc with
  | RuleOutcome.raises msg => some msg
  | RuleOutcome.notList ty => some (msgNotList ty)
  | RuleOutcome.retList items =>
    if items.isEmpty then none else (processItems filename fname 0 items).2

/-- Does the checker invocation count as failed? -/
def outcomeFails (filename fname : String) (oc : RuleOutcome) : Bool :=
  (outcomeErr filename fname oc).isSome

/-- The per-checker detail entry one invocation appends. -/
def detailOf (filename fname : String) (oc : RuleOutcome) : Detail :=
  match oc with
  | RuleOutcome.raises msg => ⟨fullName filename fname, "failed", none, some msg⟩
  | RuleOutcome.notList ty =>
    ⟨fullName filename fname, "failed", none, some (msgNotList ty)⟩
  | RuleOutcome.retList items =>
    if items.isEmpty then ⟨fullName filename fname, "success", some 0, none⟩
    else
      match (processItems filename fname 0 items).2 with
      | some msg => ⟨fullName filename fname, "failed", none, some msg⟩
      | none => ⟨fullName filename fname, "success", some items.length, none⟩

/-- The trace lines one checker invocation appends. -/
def logLinesOf (filename fname : String) (oc : RuleOutcome) : List String :=
  ["\n📋 Running: " ++ fullName filename fname] ++
  match oc with
  | RuleOutcome.raises msg => ["  ✗ ERROR: " ++ msg]
  | RuleOutcome.notList ty => ["  ✗ ERROR: " ++ msgNotList ty]
  | RuleOutcome.retList items =>
    if items.isEmpty then ["  ⚠️  No results returned"]
    else
      match (processItems filename fname 0 items).2 with
      | some msg => ["  ✗ ERROR: " ++ msg]
      | none => ["  ✓ " ++ toString items.length ++ " result(s)"]

/-- The flattened (module, rule) pairs that pass the filter, in loop order. -/
def selectedPairs (checkers : List (String × List (String × Rule)))
    (checker_filter : Option String) : List (String × String × Rule) :=
  (flatPairs checkers).filter (fun p => !skipByFilter checker_filter p.1)

/-- The report of a `run` call, defaulting to an empty report on error. -/
def reportOf (x : CheckerOrchestrator × Except String Report) : Report :=
  match x.2 with
  | Except.ok r => r
  | Except.error _ => ⟨[], ⟨0, 0, 0, 0, []⟩, ""⟩

/-- The status bucket a record falls into in `get_summary_by_status`. -/
def statusOf (r : Dict) : Val := (pyGet r "check_status").getD (Val.str "unknown")

/-- Occurrence count of one status value among the records. -/
def countStatus (results : List Dict) (v : Val) : Nat :=
  (results.filter (fun r => statusOf r == v)).length

/-- The eleven keys the specification claims every emitted record has:
the nine base keys plus the two provenance keys. -/
def elevenKeys : List String :=
  requiredKeys ++ ["_checker_file", "_checker_function"]

/-- Does the key set of a record equal exactly the eleven specified keys? -/
def keysMatchEleven (r : Dict) : Bool :=
  elevenKeys.all (fun k => pyHasKey r k) && (pyKeys r).all (fun k => elevenKeys.contains k)

/-! Lemmas about the dict operations. -/

section DictLemmas

variable {κ α : Type} [BEq κ]

theorem dictFind_nil (k : κ) : dictFind ([] : List (κ × α)) k = none := rfl

theorem dictFind_cons (q : κ × α) (t : List (κ × α)) (k : κ) :
    dictFind (q :: t) k = if (q.1 == k) = true then some q.2 else dictFind t k := by
  unfold dictFind
  cases h : q.1 == k <;> simp [List.find?, h]

theorem dictHasKey_nil (k : κ) : dictHasKey ([] : List (κ × α)) k = false := rfl

theorem dictHasKey_cons (q : κ × α) (t : List (κ × α)) (k : κ) :
    dictHasKey (q :: t) k = ((q.1 == k) || dictHasKey t k) := by
  simp [dictHasKey]

theorem dictHasKey_append (d e : List (κ × α)) (k : κ) :
    dictHasKey (d ++ e) k = (dictHasKey d k || dictHasKey e k) := by
  simp [dictHasKey, List.any_append]

variable [LawfulBEq κ]

omit [LawfulBEq κ] in
theorem dictFind_eq_none_of_not_hasKey (d : List (κ × α)) (k : κ)
    (h : dictHasKey d k = false) : dictFind d k = none := by
  induction d with
  | nil => rfl
  | cons q t ih =>
    rw [dictHasKey_cons] at h
    rcases Bool.or_eq_false_iff.mp h with ⟨h1, h2⟩
    rw [dictFind_cons, h1]
    simp [ih h2]

omit [LawfulBEq κ] in
theorem dictFind_isSome_eq_hasKey (d : List (κ × α)) (k : κ) :
    (dictFind d k).isSome = dictHasKey d k := by
  induction d with
  | nil => rfl
  | cons q t ih =>
    rw [dictFind_cons, dictHasKey_cons]
    cases h : q.1 == k <;> simp [ih]

theorem map_set_fst (k : κ) (v : α) (p : κ × α) :
    (if (p.1 == k) = true then (k, v) else p).1 = p.1 := by
  by_cases h : p.1 = k
  · simp [h]
  · simp [beq_eq_false_iff_ne.mpr h]

theorem map_set_id_of_no_key (t : List (κ × α)) (k : κ) (v : α)
    (h : ∀ q ∈ t, q.1 ≠ k) :
    t.map (fun p => if (p.1 == k) = true then (k, v) else p) = t := by
  induction t with
  | nil => rfl
  | cons q t ih =>
    have hq : (q.1 == k) = false :=
      beq_eq_false_iff_ne.mpr (h q (List.mem_cons_self q t))
    simp only [List.map_cons, hq]
    simp [ih (fun r hr => h r (List.mem_cons_of_mem q hr))]

theorem hasKey_map_set (d : List (κ × α)) (k : κ) (v : α) (k' : κ) :
    dictHasKey (d.map (fun p => if (p.1 == k) = true then (k, v) else p)) k'
      = dictHasKey d k' := by
  induction d with
  | nil => rfl
  | cons q t ih =>
    simp only [List.map_cons, dictHasKey_cons, map_set_fst, ih]

theorem dictFind_map_set_self (d : List (κ × α)) (k : κ) (v : α)
    (h : dictHasKey d k = true) :
    dictFind (d.map (fun p => if (p.1 == k) = true then (k, v) else p)) k = some v := by
  induction d with
  | nil => simp [dictHasKey] at h
  | cons q t ih =>
    rw [dictHasKey_cons] at h
    by_cases hq : q.1 = k
    · have hq' : (q.1 == k) = true := beq_iff_eq.mpr hq
      rw [List.map_cons, if_pos hq', dictFind_cons]
      simp
    · have hq' : (q.1 == k) = false := beq_eq_false_iff_ne.mpr hq
      rw [hq', Bool.false_or] at h
      rw [List.map_cons, if_neg (by simp [hq']), dictFind_cons]
      simp [hq', ih h]

theorem dictFind_map_set_ne (d : List (κ × α)) (k : κ) (v : α) (k' : κ)
    (h : k' ≠ k) :
    dictFind (d.map (fun p => if (p.1 == k) = true then (k, v) else p)) k'
      = dictFind d k' := by
  induction d with
  | nil => rfl
  | cons q t ih =>
    by_cases hq : q.1 = k
    · have hq' : (q.1 == k) = true := beq_iff_eq.mpr hq
      have h1' : q.1 ≠ k' := fun e => h (by rw [← e, hq])
      have h2 : ((k : κ) == k') = false :=
        beq_eq_false_iff_ne.mpr (fun e => h e.symm)
      rw [List.map_cons, if_pos hq', dictFind_cons, dictFind_cons]
      simp [h2, beq_eq_false_iff_ne.mpr h1', ih]
    · have hq' : (q.1 == k) = false := beq_eq_false_iff_ne.mpr hq
      rw [List.map_cons, if_neg (by simp [hq']), dictFind_cons, dictFind_cons]
      cases hk' : q.1 == k' <;> simp [hk', ih]

omit [LawfulBEq κ] in
theorem dictFind_append_no_key (d e : List (κ × α)) (k : κ)
    (h : dictHasKey d k = false) :
    dictFind (d ++ e) k = dictFind e k := by
  induction d with
  | nil => rfl
  | cons q t ih =>
    rw [dictHasKey_cons] at h
    rcases Bool.or_eq_false_iff.mp h with ⟨h1, h2⟩
    rw [List.cons_append, dictFind_cons, h1]
    simp [ih h2]

omit [LawfulBEq κ] in
theorem dictFind_append_left (d e : List (κ × α)) (k : κ)
    (h : dictHasKey d k = true) :
    dictFind (d ++ e) k = dictFind d k := by
  induction d with
  | nil => simp [dictHasKey] at h
  | cons q t ih =>
    rw [dictHasKey_cons] at h
    rw [List.cons_append, dictFind_cons, dictFind_cons]
    cases hq : q.1 == k with
    | true => simp
    | false =>
      rw [hq, Bool.false_or] at h
      simp [ih h]

theorem dictFind_dictSet_self (d : List (κ × α)) (k : κ) (v : α) :
    dictFind (dictSet d k v) k = some v := by
  unfold dictSet
  cases h : d.any (fun p => p.1 == k) with
  | true => simpa using dictFind_map_set_self d k v h
  | false =>
    have hno : dictHasKey d k = false := h
    simp only [Bool.false_eq_true, if_false]
    rw [dictFind_append_no_key d [(k, v)] k hno, dictFind_cons]
    simp

theorem dictFind_dictSet_ne (d : List (κ × α)) (k k' : κ) (v : α) (h : k' ≠ k) :
    dictFind (dictSet d k v) k' = dictFind d k' := by
  unfold dictSet
  cases hany : d.any (fun p => p.1 == k) with
  | true => simpa using dictFind_map_set_ne d k v k' h
  | false =>
    simp only [Bool.false_eq_true, if_false]
    cases hk' : dictHasKey d k' with
    | true => exact dictFind_append_left d [(k, v)] k' hk'
    | false =>
      rw [dictFind_append_no_key d [(k, v)] k' hk', dictFind_cons,
        dictFind_eq_none_of_not_hasKey d k' hk']
      simp [beq_eq_false_iff_ne.mpr (fun e : k = k' => h e.symm), dictFind_nil]

theorem dictHasKey_dictSet (d : List (κ × α)) (k k' : κ) (v : α) :
    dictHasKey (dictSet d k v) k' = ((k' == k) || dictHasKey d k') := by
  unfold dictSet
  cases hany : d.any (fun p => p.1 == k) with
  | true =>
    have hh : dictHasKey d k = true := hany
    simp only [if_true]
    rw [hasKey_map_set]
    by_cases he : k' = k
    · subst he; simp [hh]
    · simp [beq_eq_false_iff_ne.mpr he]
  | false =>
    simp only [Bool.false_eq_true, if_false]
    rw [dictHasKey_append, dictHasKey_cons, dictHasKey_nil]
    by_cases he : k' = k
    · subst he; simp
    · simp [beq_eq_false_iff_ne.mpr he,
        beq_eq_false_iff_ne.mpr (fun e : k = k' => he e.symm)]

theorem dictSet_of_mem (d : List (κ × α)) (k : κ) (v : α)
    (hnd : (d.map (fun p => p.1)).Nodup) (hm : (k, v) ∈ d) :
    dictSet d k v = d := by
  have hany : d.any (fun p => p.1 == k) = true :=
    List.any_eq_true.mpr ⟨(k, v), hm, by simp⟩
  unfold dictSet
  simp only [hany, if_true]
  induction d with
  | nil => rfl
  | cons q t ih =>
    simp only [List.map_cons, List.nodup_cons] at hnd
    rcases List.mem_cons.mp hm with hh | ht
    · subst hh
      have hno : ∀ r ∈ t, r.1 ≠ k := by
        intro r hr he
        exact hnd.1 (by rw [← he]; exact List.mem_map.mpr ⟨r, hr, rfl⟩)
      rw [List.map_cons, map_set_id_of_no_key t k v hno]
      simp
    · have hq : q.1 ≠ k := by
        intro he
        exact hnd.1 (by rw [he]; exact List.mem_map.mpr ⟨(k, v), ht, rfl⟩)
      have hq' : (q.1 == k) = false := beq_eq_false_iff_ne.mpr hq
      have htany : t.any (fun p => p.1 == k) = true :=
        List.any_eq_true.mpr ⟨(k, v), ht, by simp⟩
      rw [List.map_cons, ih hnd.2 ht htany]
      simp [hq']

end DictLemmas

/-! Lemmas about the lexicographic order and the sorting function. -/

theorem charListLe_iff_not_lt :
    ∀ as bs : List Char, charListLe as bs = true ↔ ¬ List.lt bs as
  | [], bs => by
    constructor
    · intro _ h
      cases h
    · intro _
      rfl
  | a :: as, [] => by
    constructor
    · intro h
      simp [charListLe] at h
    · intro h
      exact absurd (List.lt.nil a as) h
  | a :: as, b :: bs => by
    by_cases hab : a = b
    · subst hab
      have ih := charListLe_iff_not_lt as bs
      constructor
      · intro h hlt
        cases hlt with
        | head _ _ hba => exact absurd hba (lt_irrefl a)
        | tail h1 h2 h3 =>
          exact (ih.mp (by simpa [charListLe] using h)) h3
      · intro h
        simp only [charListLe, if_pos rfl]
        exact ih.mpr (fun hlt => h (List.lt.tail (lt_irrefl a) (lt_irrefl a) hlt))
    · constructor
      · intro h hlt
        have hba : ¬ b < a := by
          simp only [charListLe, if_neg hab, decide_eq_true_eq] at h
          exact lt_asymm h
        cases hlt with
        | head _ _ hba' => exact hba hba'
        | tail h1 h2 h3 =>
          rcases lt_trichotomy a b with hc | hc | hc
          · exact h2 hc
          · exact hab hc
          · exact h1 hc
      · intro h
        simp only [charListLe, if_neg hab, decide_eq_true_eq]
        rcases lt_trichotomy a b with hc | hc | hc
        · exact hc
        · exact absurd hc hab
        · exact absurd (List.lt.head bs as hc) h

theorem strLe_iff_not_lt (a b : String) : strLe a b = true ↔ ¬ List.lt b.data a.data :=
  charListLe_iff_not_lt a.data b.data

theorem charListLe_total : ∀ as bs : List Char,
    charListLe as bs = true ∨ charListLe bs as = true
  | [], _ => Or.inl rfl
  | _ :: _, [] => Or.inr rfl
  | a :: as, b :: bs => by
    by_cases hab : a = b
    · subst hab
      rcases charListLe_total as bs with h | h
      · left
        simpa [charListLe] using h
      · right
        simpa [charListLe] using h
    · rcases lt_trichotomy a b with hc | hc | hc
      · left
        simp [charListLe, if_neg hab, hc]
      · exact absurd hc hab
      · right
        simp [charListLe, if_neg (fun e : b = a => hab e.symm), hc]

theorem charListLe_trans : ∀ as bs cs : List Char,
    charListLe as bs = true → charListLe bs cs = true → charListLe as cs = true
  | [], _, _, _, _ => rfl
  | _ :: _, [], _, h1, _ => by simp [charListLe] at h1
  | _ :: _, _ :: _, [], _, h2 => by simp [charListLe] at h2
  | a :: as, b :: bs, c :: cs, h1, h2 => by
    by_cases hab : a = b
    · by_cases hbc : b = c
      · have hac : a = c := hab.trans hbc
        subst hac
        subst hab
        simp only [charListLe, if_pos rfl] at h1 h2 ⊢
        exact charListLe_trans as bs cs h1 h2
      · subst hab
        simp only [charListLe, if_neg hbc, decide_eq_true_eq] at h2
        have hac : a ≠ c := fun e => hbc e
        simp only [charListLe, if_neg hac, decide_eq_true_eq]
        exact h2
    · by_cases hbc : b = c
      · subst hbc
        simp only [charListLe, if_neg hab, decide_eq_true_eq] at h1
        simp only [charListLe, if_neg hab, decide_eq_true_eq]
        exact h1
      · simp only [charListLe, if_neg hab, decide_eq_true_eq] at h1
        simp only [charListLe, if_neg hbc, decide_eq_true_eq] at h2
        have hac : a < c := lt_trans h1 h2
        simp [charListLe, if_neg (ne_of_lt hac), hac]

theorem insertSorted_perm {α : Type} (le : α → α → Bool) (a : α) :
    ∀ l : List α, (insertSorted le a l).Perm (a :: l)
  | [] => List.Perm.refl [a]
  | b :: bs => by
    unfold insertSorted
    by_cases h : le a b = true
    · simp [h]
    · simp only [h, Bool.false_eq_true, if_false]
      exact List.Perm.trans ((insertSorted_perm le a bs).cons b) (List.Perm.swap a b bs)

theorem sortBy_perm {α : Type} (le : α → α → Bool) :
    ∀ l : List α, (sortBy le l).Perm l
  | [] => List.Perm.refl []
  | a :: as =>
    ((insertSorted_perm le a (sortBy le as)).trans ((sortBy_perm le as).cons a))

theorem insertSorted_pairwise {α : Type} (le : α → α → Bool)
    (htrans : ∀ x y z, le x y = true → le y z = true → le x z = true)
    (htotal : ∀ x y, le x y = true ∨ le y x = true) (a : α) :
    ∀ l : List α, l.Pairwise (fun x y => le x y = true) →
      (insertSorted le a l).Pairwise (fun x y => le x y = true)
  | [], _ => List.pairwise_singleton _ a
  | b :: bs, h => by
    rcases List.pairwise_cons.mp h with ⟨hb, hs⟩
    unfold insertSorted
    by_cases hab : le a b = true
    · simp only [hab, if_pos rfl]
      refine List.pairwise_cons.mpr ⟨?_, h⟩
      intro x hx
      rcases List.mem_cons.mp hx with rfl | hx
      · exact hab
      · exact htrans a b x hab (hb x hx)
    · have hba : le b a = true := by
        rcases htotal a b with hh | hh
        · exact absurd hh hab
        · exact hh
      simp only [hab, Bool.false_eq_true, if_false]
      refine List.pairwise_cons.mpr ⟨?_, insertSorted_pairwise le htrans htotal a bs hs⟩
      intro x hx
      rcases List.mem_cons.mp ((insertSorted_perm le a bs).mem_iff.mp hx) with rfl | h2
      · exact hba
      · exact hb x h2

theorem sortBy_pairwise {α : Type} (le : α → α → Bool)
    (htrans : ∀ x y z, le x y = true → le y z = true → le x z = true)
    (htotal : ∀ x y, le x y = true ∨ le y x = true) :
    ∀ l : List α, (sortBy le l).Pairwise (fun x y => le x y = true)
  | [] => List.Pairwise.nil
  | a :: as =>
    insertSorted_pairwise le htrans htotal a (sortBy le as)
      (sortBy_pairwise le htrans htotal as)

/-! Lemmas about the per-checker execution step. -/

theorem processItems_mem_keys (filename fname : String) :
    ∀ (items : List RuleItem) (i : Nat) (r : Dict),
      r ∈ (processItems filename fname i items).1 →
      (∀ k ∈ requiredKeys, pyHasKey r k = true) ∧
      pyGet r "_checker_file" = some (Val.str filename) ∧
      pyGet r "_checker_function" = some (Val.str fname)
  | [], _, r, hr => absurd hr (List.not_mem_nil r)
  | RuleItem.notDict ty :: _, i, r, hr => absurd hr (List.not_mem_nil r)
  | RuleItem.rdict d :: rest, i, r, hr => by
    unfold processItems at hr
    by_cases hm : (requiredKeys.filter (fun k => !pyHasKey d k)).isEmpty = true
    · simp only [hm, if_pos rfl] at hr
      rcases List.mem_cons.mp hr with rfl | hr2
      · have hkeys : ∀ k ∈ requiredKeys, pyHasKey d k = true := by
          intro k hk
          have := List.filter_eq_nil_iff.mp (List.isEmpty_iff.mp hm) k hk
          simpa using this
        refine ⟨?_, ?_, ?_⟩
        · intro k hk
          have h1 := hkeys k hk
          show dictHasKey (dictSet (dictSet d "_checker_file" (Val.str filename))
            "_checker_function" (Val.str fname)) k = true
          rw [dictHasKey_dictSet, dictHasKey_dictSet]
          have h2 : dictHasKey d k = true := h1
          simp [h2]
        · show dictFind (dictSet (dictSet d "_checker_file" (Val.str filename))
            "_checker_function" (Val.str fname)) "_checker_file" = some (Val.str filename)
          rw [dictFind_dictSet_ne _ _ _ _ (by decide),
            dictFind_dictSet_self]
        · show dictFind (dictSet (dictSet d "_checker_file" (Val.str filename))
            "_checker_function" (Val.str fname)) "_checker_function" = some (Val.str fname)
          rw [dictFind_dictSet_self]
      · exact processItems_mem_keys filename fname rest (i + 1) r hr2
    · simp only [hm, if_neg] at hr
      simp only [Bool.not_eq_true] at hm
      simp [hm] at hr

theorem takeWhile_append_stop {α : Type} (p : α → Bool) :
    ∀ (pre : List α) (bad : α) (rest : List α),
      (∀ f ∈ pre, p f = true) → p bad = false →
      (pre ++ bad :: rest).takeWhile p = pre
  | [], bad, rest, _, hbad => by simp [List.takeWhile_cons, hbad]
  | f :: pre, bad, rest, hpre, hbad => by
    have hf : p f = true := hpre f (List.mem_cons_self f pre)
    rw [List.cons_append, List.takeWhile_cons, if_pos hf,
      takeWhile_append_stop p pre bad rest
        (fun g hg => hpre g (List.mem_cons_of_mem f hg)) hbad]

theorem runStep_skip (m : IfcFile) (cfg : Config) (flt : Option String)
    (st : RunState) (p : String × String × Rule)
    (h : skipByFilter flt p.1 = true) : runStep m cfg flt st p = st := by
  unfold runStep
  simp [h]

theorem runStep_go (m : IfcFile) (cfg : Config) (flt : Option String)
    (st : RunState) (fn g : String) (r : Rule)
    (h : skipByFilter flt fn = false) :
    runStep m cfg flt st (fn, g, r) =
      ⟨st.allResults ++ keptRecords fn g (r m cfg),
       st.total + 1,
       st.successful + (if outcomeFails fn g (r m cfg) then 0 else 1),
       st.failed + (if outcomeFails fn g (r m cfg) then 1 else 0),
       st.details ++ [detailOf fn g (r m cfg)],
       st.log ++ logLinesOf fn g (r m cfg)⟩ := by
  obtain ⟨ra, rt, rs, rf, rd, rl⟩ := st
  cases hoc : r m cfg with
  | raises msg =>
    simp [runStep, h, hoc, keptRecords, outcomeFails, outcomeErr, detailOf, logLinesOf]
  | notList ty =>
    simp [runStep, h, hoc, keptRecords, outcomeFails, outcomeErr, detailOf, logLinesOf]
  | retList items =>
    by_cases hem : items.isEmpty = true
    · have : items = [] := List.isEmpty_iff.mp hem
      subst this
      simp [runStep, h, hoc, keptRecords, outcomeFails, outcomeErr, detailOf,
        logLinesOf, processItems]
    · cases hpr : (processItems fn g 0 items).2 with
      | some msg =>
        simp [runStep, h, hoc, hem, hpr, keptRecords, outcomeFails, outcomeErr,
          detailOf, logLinesOf]
      | none =>
        simp [runStep, h, hoc, hem, hpr, keptRecords, outcomeFails, outcomeErr,
          detailOf, logLinesOf]

/-- Full characterization of the checker loop of `run` as a fold. -/
theorem foldl_runStep (m : IfcFile) (cfg : Config) (flt : Option String) :
    ∀ (pairs : List (String × String × Rule)) (st : RunState),
      pairs.foldl (runStep m cfg flt) st =
        ⟨st.allResults ++ (pairs.filter (fun p => !skipByFilter flt p.1)).flatMap
            (fun p => keptRecords p.1 p.2.1 (p.2.2 m cfg)),
         st.total + (pairs.filter (fun p => !skipByFilter flt p.1)).length,
         st.successful + ((pairs.filter (fun p => !skipByFilter flt p.1)).filter
            (fun p => !outcomeFails p.1 p.2.1 (p.2.2 m cfg))).length,
         st.failed + ((pairs.filter (fun p => !skipByFilter flt p.1)).filter
            (fun p => outcomeFails p.1 p.2.1 (p.2.2 m cfg))).length,
         st.details ++ (pairs.filter (fun p => !skipByFilter flt p.1)).map
            (fun p => detailOf p.1 p.2.1 (p.2.2 m cfg)),
         st.log ++ (pairs.filter (fun p => !skipByFilter flt p.1)).flatMap
            (fun p => logLinesOf p.1 p.2.1 (p.2.2 m cfg))⟩
  | [], st => by cases st; simp
  | p :: ps, st => by
    obtain ⟨fn, g, r⟩ := p
    rw [List.foldl_cons]
    cases hs : skipByFilter flt fn with
    | true =>
      rw [runStep_skip m cfg flt st (fn, g, r) hs, foldl_runStep m cfg flt ps st]
      simp [List.filter_cons, hs]
    | false =>
      rw [runStep_go m cfg flt st fn g r hs, foldl_runStep m cfg flt ps _]
      cases hof : outcomeFails fn g (r m cfg) <;>
        simp [List.filter_cons, hs, hof, List.append_assoc] <;> omega

/-! Characterization of `run`. -/

/-- All records a run admits, in loop order. -/
def selKept (checkers : List (String × List (String × Rule))) (flt : Option String)
    (m : IfcFile) (cfg : Config) : List Dict :=
  (selectedPairs checkers flt).flatMap (fun p => keptRecords p.1 p.2.1 (p.2.2 m cfg))

/-- Number of selected (module, rule) pairs. -/
def selLen (checkers : List (String × List (String × Rule))) (flt : Option String) : Nat :=
  (selectedPairs checkers flt).length

/-- Number of selected rules that succeed. -/
def selSucc (checkers : List (String × List (String × Rule))) (flt : Option String)
    (m : IfcFile) (cfg : Config) : Nat :=
  ((selectedPairs checkers flt).filter
    (fun p => !outcomeFails p.1 p.2.1 (p.2.2 m cfg))).length

/-- Number of selected rules that fail. -/
def selFail (checkers : List (String × List (String × Rule))) (flt : Option String)
    (m : IfcFile) (cfg : Config) : Nat :=
  ((selectedPairs checkers flt).filter
    (fun p => outcomeFails p.1 p.2.1 (p.2.2 m cfg))).length

/-- The full execution log after a successful run. -/
def runLog (o : CheckerOrchestrator) (m : IfcFile) (flt : Option String)
    (cfg : Config) : List String :=
  o.executionLog ++ ["\n" ++ sep70, "ORCHESTRATOR EXECUTION START", sep70] ++
  (selectedPairs o.checkers flt).flatMap (fun p => logLinesOf p.1 p.2.1 (p.2.2 m cfg)) ++
  ["\n" ++ sep70, "ORCHESTRATOR EXECUTION COMPLETE",
   "  Checkers run: " ++ toString (selSucc o.checkers flt m cfg) ++ "/" ++
     toString (selLen o.checkers flt),
   "  Results collected: " ++ toString (selKept o.checkers flt m cfg).length,
   sep70]

theorem run_empty_registry (o : CheckerOrchestrator) (model : ModelArg)
    (flt : Option String) (cfg : Config) (h : o.checkers.isEmpty = true) :
    run o model flt cfg =
      (o, Except.error "No checkers discovered. Call discover() first.") := by
  simp [run, h]

theorem run_wrong_type (o : CheckerOrchestrator) (ty : String)
    (flt : Option String) (cfg : Config) (h : o.checkers.isEmpty = false) :
    run o (ModelArg.notIfc ty) flt cfg =
      (o, Except.error "model must be an ifcopenshell.file object") := by
  simp [run, h]

theorem run_ifc_eq (o : CheckerOrchestrator) (m : IfcFile) (flt : Option String)
    (cfg : Config) (h : o.checkers.isEmpty = false) :
    run o (ModelArg.ifcFile m) flt cfg =
      ({ o with executionLog := runLog o m flt cfg },
       Except.ok
         ⟨selKept o.checkers flt m cfg,
          ⟨selLen o.checkers flt, selSucc o.checkers flt m cfg,
           selFail o.checkers flt m cfg, (selKept o.checkers flt m cfg).length,
           (selectedPairs o.checkers flt).map (fun p => detailOf p.1 p.2.1 (p.2.2 m cfg))⟩,
          String.intercalate "\n" (runLog o m flt cfg)⟩) := by
  simp [run, h, foldl_runStep, selKept, selLen, selSucc, selFail, selectedPairs,
    runLog, List.append_assoc]

/-! Characterization of `discover`. -/

theorem ruleBearing_fst (f : FileEntry) (kv : String × List (String × Rule))
    (h : ruleBearing f = some kv) : kv.1 = f.name := by
  unfold ruleBearing at h
  cases hl : f.loadResult with
  | loadError msg => rw [hl] at h; simp at h
  | loaded members =>
    rw [hl] at h
    by_cases hc : (checkFunctions members).isEmpty = true
    · simp [hc] at h
    · simp only [hc, Bool.false_eq_true, if_false] at h
      cases h
      rfl

theorem discoverLoop_checkers :
    ∀ (fs : List FileEntry) (o : CheckerOrchestrator),
      (discoverLoop o fs).1.checkers =
        (fs.takeWhile isLoadable).foldl regStep o.checkers
  | [], o => rfl
  | f :: fs, o => by
    cases hl : f.loadResult with
    | loadError msg =>
      have hload : isLoadable f = false := by simp [isLoadable, hl]
      simp [discoverLoop, hl, List.takeWhile_cons, hload]
    | loaded members =>
      have hload : isLoadable f = true := by simp [isLoadable, hl]
      have hrb : regStep o.checkers f =
          (if (checkFunctions members).isEmpty = true then o.checkers
           else dictSet o.checkers f.name (checkFunctions members)) := by
        unfold regStep ruleBearing
        rw [hl]
        by_cases hc : (checkFunctions members).isEmpty = true
        · simp [hc]
        · simp [hc]
      by_cases hc : (checkFunctions members).isEmpty = true
      · simp only [discoverLoop, hl, hc, if_pos rfl, if_true, eq_self_iff_true]
        rw [discoverLoop_checkers fs _, List.takeWhile_cons, if_pos hload]
        simp only [List.foldl_cons, hrb, hc, if_pos rfl, if_true, eq_self_iff_true]
      · simp only [discoverLoop, hl, hc, Bool.false_eq_true, if_false]
        rw [discoverLoop_checkers fs _, List.takeWhile_cons, if_pos hload]
        simp only [List.foldl_cons, hrb, hc, Bool.false_eq_true, if_false]

theorem discoverLoop_ok :
    ∀ (fs : List FileEntry) (o : CheckerOrchestrator),
      (∀ f ∈ fs, isLoadable f = true) → (discoverLoop o fs).2 = none
  | [], _, _ => rfl
  | f :: fs, o, h => by
    cases hl : f.loadResult with
    | loadError msg =>
      have := h f (List.mem_cons_self f fs)
      simp [isLoadable, hl] at this
    | loaded members =>
      have ht : ∀ g ∈ fs, isLoadable g = true :=
        fun g hg => h g (List.mem_cons_of_mem f hg)
      by_cases hc : (checkFunctions members).isEmpty = true
      · simp only [discoverLoop, hl, hc, if_pos rfl]
        exact discoverLoop_ok fs _ ht
      · simp only [discoverLoop, hl, hc, Bool.false_eq_true, if_false]
        exact discoverLoop_ok fs _ ht

theorem discoverLoop_err :
    ∀ (pre : List FileEntry) (o : CheckerOrchestrator) (bad : FileEntry)
      (rest : List FileEntry) (msg : String),
      (∀ f ∈ pre, isLoadable f = true) → bad.loadResult = LoadResult.loadError msg →
      (discoverLoop o (pre ++ bad :: rest)).2 =
        some ("Failed to load " ++ bad.name ++ ": " ++ msg)
  | [], o, bad, rest, msg, _, hbad => by
    simp [discoverLoop, hbad]
  | f :: pre, o, bad, rest, msg, hpre, hbad => by
    cases hl : f.loadResult with
    | loadError m2 =>
      have := hpre f (List.mem_cons_self f pre)
      simp [isLoadable, hl] at this
    | loaded members =>
      have ht : ∀ g ∈ pre, isLoadable g = true :=
        fun g hg => hpre g (List.mem_cons_of_mem f hg)
      by_cases hc : (checkFunctions members).isEmpty = true
      · simp only [List.cons_append, discoverLoop, hl, hc, if_pos rfl]
        exact discoverLoop_err pre _ bad rest msg ht hbad
      · simp only [List.cons_append, discoverLoop, hl, hc, Bool.false_eq_true, if_false]
        exact discoverLoop_err pre _ bad rest msg ht hbad

theorem discoverLoop_log :
    ∀ (fs : List FileEntry) (o : CheckerOrchestrator),
      ∃ t, (discoverLoop o fs).1.executionLog = o.executionLog ++ t
  | [], o => ⟨[], by simp [discoverLoop]⟩
  | f :: fs, o => by
    have key : ∀ (o2 : CheckerOrchestrator) (l : List String),
        o2.executionLog = o.executionLog ++ l →
        ∃ t, (discoverLoop o2 fs).1.executionLog = o.executionLog ++ t := by
      intro o2 l hlog
      obtain ⟨t, ht⟩ := discoverLoop_log fs o2
      exact ⟨l ++ t, by rw [ht, hlog, List.append_assoc]⟩
    cases hl : f.loadResult with
    | loadError msg =>
      exact ⟨["  ✗ " ++ f.name ++ ": " ++ msg], by simp [discoverLoop, hl]⟩
    | loaded members =>
      by_cases hc : (checkFunctions members).isEmpty = true
      · simp only [discoverLoop, hl, hc, if_pos rfl]
        exact key _ ["  ⚠️  " ++ f.name ++ ": No check_* functions found"] rfl
      · simp only [discoverLoop, hl, hc, Bool.false_eq_true, if_false]
        exact key _ [foundFunctionsLine f.name (checkFunctions members)] rfl

theorem foldl_regStep_fresh :
    ∀ (fs : List FileEntry) (acc : List (String × List (String × Rule))),
      (∀ f ∈ fs, dictHasKey acc f.name = false) →
      (fs.map (fun f => f.name)).Nodup →
      fs.foldl regStep acc = acc ++ fs.filterMap ruleBearing
  | [], acc, _, _ => by simp
  | f :: fs, acc, hfresh, hnd => by
    rw [List.map_cons, List.nodup_cons] at hnd
    rw [List.foldl_cons]
    cases hrb : ruleBearing f with
    | none =>
      have hstep : regStep acc f = acc := by simp [regStep, hrb]
      rw [hstep, foldl_regStep_fresh fs acc
        (fun g hg => hfresh g (List.mem_cons_of_mem f hg)) hnd.2]
      simp [List.filterMap_cons, hrb]
    | some kv =>
      have hk1 : kv.1 = f.name := ruleBearing_fst f kv hrb
      have hstep : regStep acc f = acc ++ [kv] := by
        unfold regStep
        rw [hrb]
        unfold dictSet
        have : dictHasKey acc kv.1 = false := hk1 ▸ hfresh f (List.mem_cons_self f fs)
        simp only [dictHasKey] at this
        simp [this]
      have hfresh2 : ∀ g ∈ fs, dictHasKey (acc ++ [kv]) g.name = false := by
        intro g hg
        have h1 : dictHasKey acc g.name = false :=
          hfresh g (List.mem_cons_of_mem f hg)
        have h2 : g.name ≠ f.name := by
          intro he
          exact hnd.1 (he ▸ List.mem_map.mpr ⟨g, hg, rfl⟩)
        have h3 : (kv.1 == g.name) = false :=
          beq_eq_false_iff_ne.mpr (fun e => h2 (e.symm.trans hk1))
        rw [dictHasKey_append, h1, dictHasKey_cons, dictHasKey_nil, h3]
        rfl
      rw [hstep, foldl_regStep_fresh fs (acc ++ [kv]) hfresh2 hnd.2]
      simp [List.filterMap_cons, hrb, List.append_assoc]

theorem foldl_regStep_id :
    ∀ (fs : List FileEntry) (acc : List (String × List (String × Rule))),
      (acc.map (fun p => p.1)).Nodup →
      (∀ f ∈ fs, ∀ kv, ruleBearing f = some kv → kv ∈ acc) →
      fs.foldl regStep acc = acc
  | [], _, _, _ => rfl
  | f :: fs, acc, hnd, hmem => by
    rw [List.foldl_cons]
    cases hrb : ruleBearing f with
    | none =>
      have hstep : regStep acc f = acc := by simp [regStep, hrb]
      rw [hstep]
      exact foldl_regStep_id fs acc hnd
        (fun g hg kv hkv => hmem g (List.mem_cons_of_mem f hg) kv hkv)
    | some kv =>
      have hstep : regStep acc f = acc := by
        unfold regStep
        rw [hrb]
        exact dictSet_of_mem acc kv.1 kv.2
          (by simpa using hnd) (by simpa using hmem f (List.mem_cons_self f fs) kv hrb)
      rw [hstep]
      exact foldl_regStep_id fs acc hnd
        (fun g hg kv2 hkv => hmem g (List.mem_cons_of_mem f hg) kv2 hkv)

theorem discover_some_fst (o : CheckerOrchestrator) (files : List FileEntry) :
    (discover o (some files)).1 =
      (discoverLoop (afterScan o (globSorted files)) (globSorted files)).1 := by
  unfold discover
  cases h : (discoverLoop (afterScan o (globSorted files)) (globSorted files)).2 <;>
    simp [h]

theorem discover_some_checkers (o : CheckerOrchestrator) (files : List FileEntry) :
    (discover o (some files)).1.checkers =
      ((globSorted files).takeWhile isLoadable).foldl regStep o.checkers := by
  rw [discover_some_fst, discoverLoop_checkers]
  rfl

theorem discover_some_err (o : CheckerOrchestrator) (files : List FileEntry)
    (pre : List FileEntry) (bad : FileEntry) (rest : List FileEntry) (msg : String)
    (hsplit : globSorted files = pre ++ bad :: rest)
    (hpre : ∀ f ∈ pre, isLoadable f = true)
    (hbad : bad.loadResult = LoadResult.loadError msg) :
    (discover o (some files)).2 =
      Except.error ("Failed to load " ++ bad.name ++ ": " ++ msg) := by
  have he := discoverLoop_err pre (afterScan o (globSorted files)) bad rest msg hpre hbad
  rw [← hsplit] at he
  simp only [discover]
  cases h2 : (discoverLoop (afterScan o (globSorted files)) (globSorted files)).2 with
  | none =>
    rw [h2] at he
    simp at he
  | some m2 =>
    rw [h2] at he
    simp only [Option.some.injEq] at he
    simp [he]

theorem discover_some_ok (o : CheckerOrchestrator) (files : List FileEntry)
    (h : ∀ f ∈ globSorted files, isLoadable f = true) :
    ∃ r, (discover o (some files)).2 = Except.ok r := by
  have hok := discoverLoop_ok (globSorted files) (afterScan o (globSorted files)) h
  simp only [discover]
  cases h2 : (discoverLoop (afterScan o (globSorted files)) (globSorted files)).2 with
  | none => exact ⟨_, rfl⟩
  | some m2 =>
    rw [h2] at hok
    simp at hok

theorem discover_log (o : CheckerOrchestrator) (dir : DirState) :
    ∃ t, (discover o dir).1.executionLog = o.executionLog ++ t := by
  cases dir with
  | none => exact ⟨[], by simp [discover]⟩
  | some files =>
    obtain ⟨t, ht⟩ := discoverLoop_log (globSorted files) (afterScan o (globSorted files))
    have ha : (afterScan o (globSorted files)).executionLog = o.executionLog ++
        ["Scanning tools directory: " ++ o.toolsDir,
         "Found " ++ toString (globSorted files).length ++ " checker file(s)"] := rfl
    rw [ha] at ht
    refine ⟨["Scanning tools directory: " ++ o.toolsDir,
      "Found " ++ toString (globSorted files).length ++ " checker file(s)"] ++ t, ?_⟩
    simp only [discover]
    cases h : (discoverLoop (afterScan o (globSorted files)) (globSorted files)).2 with
    | none =>
      simp only [h]
      rw [ht, List.append_assoc]
    | some m2 =>
      simp only [h]
      rw [ht, List.append_assoc]

/-! Lemmas about the aggregation service. -/

/-- The fold step of `get_summary_by_status`. -/
def summaryUpd (summary : List (Val × Nat)) (r : Dict) : List (Val × Nat) :=
  dictSet summary (statusOf r) ((dictFind summary (statusOf r)).getD 0 + 1)

theorem get_summary_eq_foldl (results : List Dict) :
    get_summary_by_status results = results.foldl summaryUpd [] := rfl

theorem countStatus_nil (v : Val) : countStatus [] v = 0 := rfl

theorem countStatus_cons (r : Dict) (rs : List Dict) (v : Val) :
    countStatus (r :: rs) v =
      countStatus rs v + (if (statusOf r == v) = true then 1 else 0) := by
  unfold countStatus
  rw [List.filter_cons]
  cases h : statusOf r == v <;> simp [h, Nat.add_comm]

theorem foldl_summaryUpd_lookup :
    ∀ (rs : List Dict) (acc : List (Val × Nat)) (v : Val),
      (dictFind (rs.foldl summaryUpd acc) v).getD 0 =
        (dictFind acc v).getD 0 + countStatus rs v
  | [], acc, v => by simp [countStatus]
  | r :: rs, acc, v => by
    rw [List.foldl_cons, foldl_summaryUpd_lookup rs _ v, countStatus_cons]
    by_cases hv : v = statusOf r
    · subst hv
      unfold summaryUpd
      rw [dictFind_dictSet_self]
      simp
      omega
    · unfold summaryUpd
      rw [dictFind_dictSet_ne _ _ _ _ hv]
      have : (statusOf r == v) = false :=
        beq_eq_false_iff_ne.mpr (fun e => hv e.symm)
      simp [this]

theorem foldl_summaryUpd_hasKey :
    ∀ (rs : List Dict) (acc : List (Val × Nat)) (v : Val),
      dictHasKey (rs.foldl summaryUpd acc) v =
        (dictHasKey acc v || rs.any (fun r => statusOf r == v))
  | [], acc, v => by simp
  | r :: rs, acc, v => by
    rw [List.foldl_cons, foldl_summaryUpd_hasKey rs _ v]
    unfold summaryUpd
    rw [dictHasKey_dictSet, List.any_cons]
    by_cases hv : v = statusOf r
    · have h1 : (v == statusOf r) = true := beq_iff_eq.mpr hv
      have h2 : (statusOf r == v) = true := beq_iff_eq.mpr hv.symm
      simp [h1, h2]
    · have h1 : (v == statusOf r) = false := beq_eq_false_iff_ne.mpr hv
      have h2 : (statusOf r == v) = false :=
        beq_eq_false_iff_ne.mpr (fun e => hv e.symm)
      simp [h1, h2]

theorem statusOf_beq_of_hasKey (r : Dict) (v : Val)
    (h : pyHasKey r "check_status" = true) :
    (statusOf r == v) = (pyGet r "check_status" == some v) := by
  have hs : (pyGet r "check_status").isSome = true := by
    show (dictFind r "check_status").isSome = true
    rw [dictFind_isSome_eq_hasKey]
    exact h
  obtain ⟨u, hu⟩ := Option.isSome_iff_exists.mp hs
  unfold statusOf
  rw [hu]
  cases he : u == v with
  | true => simp [beq_iff_eq.mp he]
  | false =>
    have : u ≠ v := by
      intro e
      rw [beq_iff_eq.mpr e] at he
      exact absurd he (by simp)
    simp [Option.getD, this]

/-! Lemmas connecting the admitted records to their provenance. -/

theorem keptRecords_mem (fn g : String) (oc : RuleOutcome) (r : Dict)
    (h : r ∈ keptRecords fn g oc) :
    (∀ k ∈ requiredKeys, pyHasKey r k = true) ∧
    pyGet r "_checker_file" = some (Val.str fn) ∧
    pyGet r "_checker_function" = some (Val.str g) := by
  cases oc with
  | raises msg => exact absurd h (List.not_mem_nil r)
  | notList ty => exact absurd h (List.not_mem_nil r)
  | retList items => exact processItems_mem_keys fn g items 0 r h

theorem processItems_mem_origin (filename fname : String) :
    ∀ (items : List RuleItem) (i : Nat) (r : Dict),
      r ∈ (processItems filename fname i items).1 →
      ∃ d : Dict,
        r = pySet (pySet d "_checker_file" (Val.str filename))
          "_checker_function" (Val.str fname)
  | [], _, r, hr => absurd hr (List.not_mem_nil r)
  | RuleItem.notDict ty :: _, i, r, hr => absurd hr (List.not_mem_nil r)
  | RuleItem.rdict d :: rest, i, r, hr => by
    unfold processItems at hr
    by_cases hm : (requiredKeys.filter (fun k => !pyHasKey d k)).isEmpty = true
    · simp only [hm, if_pos rfl] at hr
      rcases List.mem_cons.mp hr with rfl | hr2
      · exact ⟨d, rfl⟩
      · exact processItems_mem_origin filename fname rest (i + 1) r hr2
    · simp only [hm, if_neg] at hr
      simp only [Bool.not_eq_true] at hm
      simp [hm] at hr

theorem keptRecords_origin (fn g : String) (oc : RuleOutcome) (r : Dict)
    (h : r ∈ keptRecords fn g oc) :
    ∃ d : Dict,
      r = pySet (pySet d "_checker_file" (Val.str fn))
        "_checker_function" (Val.str g) := by
  cases oc with
  | raises msg => exact absurd h (List.not_mem_nil r)
  | notList ty => exact absurd h (List.not_mem_nil r)
  | retList items => exact processItems_mem_origin fn g items 0 r h

theorem pyGet_tagged_other (d : Dict) (fn g k : String)
    (h1 : k ≠ "_checker_file") (h2 : k ≠ "_checker_function") :
    pyGet (pySet (pySet d "_checker_file" (Val.str fn))
      "_checker_function" (Val.str g)) k = pyGet d k := by
  show dictFind (dictSet (dictSet d "_checker_file" (Val.str fn))
    "_checker_function" (Val.str g)) k = dictFind d k
  rw [dictFind_dictSet_ne _ _ _ _ h2, dictFind_dictSet_ne _ _ _ _ h1]

/-! Lemmas about the shape of a freshly discovered registry. -/

theorem filterMap_ruleBearing_keys :
    ∀ fs : List FileEntry,
      (fs.filterMap ruleBearing).map (fun p => p.1) =
        (fs.filter (fun f => (ruleBearing f).isSome)).map (fun f => f.name)
  | [] => rfl
  | f :: fs => by
    cases hrb : ruleBearing f with
    | none =>
      simp [List.filterMap_cons, List.filter_cons, hrb, filterMap_ruleBearing_keys fs]
    | some kv =>
      simp [List.filterMap_cons, List.filter_cons, hrb, ruleBearing_fst f kv hrb,
        filterMap_ruleBearing_keys fs]

theorem takeWhile_all {α : Type} (p : α → Bool) :
    ∀ l : List α, (∀ x ∈ l, p x = true) → l.takeWhile p = l
  | [], _ => rfl
  | x :: xs, h => by
    rw [List.takeWhile_cons, if_pos (h x (List.mem_cons_self x xs)),
      takeWhile_all p xs (fun y hy => h y (List.mem_cons_of_mem x hy))]

theorem globSorted_names_nodup (files : List FileEntry)
    (h : (files.map (fun f => f.name)).Nodup) :
    ((globSorted files).map (fun f => f.name)).Nodup := by
  have hperm : ((globSorted files).map (fun f => f.name)).Perm
      ((files.filter (fun f => globMatch f.name)).map (fun f => f.name)) :=
    (sortBy_perm _ _).map _
  refine hperm.nodup_iff.mpr ?_
  exact List.Nodup.sublist (List.Sublist.map _ (List.filter_sublist files)) h

theorem globSorted_pairwise (files : List FileEntry) :
    (globSorted files).Pairwise (fun a b : FileEntry => strLe a.name b.name = true) :=
  sortBy_pairwise _
    (fun (x y z : FileEntry) hxy hyz =>
      charListLe_trans x.name.data y.name.data z.name.data hxy hyz)
    (fun (x y : FileEntry) => charListLe_total x.name.data y.name.data) _

/-! Small bridge lemmas used by the claim theorems. -/

theorem any_congr {α : Type} (p q : α → Bool) :
    ∀ l : List α, (∀ x ∈ l, p x = q x) → l.any p = l.any q
  | [], _ => rfl
  | x :: xs, h => by
    rw [List.any_cons, List.any_cons, h x (List.mem_cons_self x xs),
      any_congr p q xs (fun y hy => h y (List.mem_cons_of_mem x hy))]

theorem isEmpty_false_of_ne_nil {α : Type} {l : List α} (h : l ≠ []) :
    l.isEmpty = false := by
  cases hx : l.isEmpty
  · rfl
  · exact absurd (List.isEmpty_iff.mp hx) h

theorem detailOf_checker (fn g : String) (oc : RuleOutcome) :
    (detailOf fn g oc).checker = fullName fn g := by
  unfold detailOf
  cases oc with
  | raises msg => rfl
  | notList ty => rfl
  | retList items =>
    by_cases hi : items.isEmpty = true
    · simp [hi]
    · cases hp : (processItems fn g 0 items).2 <;> simp [hi, hp]

theorem detailOf_failed (fn g : String) (oc : RuleOutcome)
    (h : outcomeFails fn g oc = true) :
    detailOf fn g oc = ⟨fullName fn g, "failed", none, outcomeErr fn g oc⟩ := by
  unfold detailOf outcomeFails outcomeErr at *
  cases oc with
  | raises msg => rfl
  | notList ty => rfl
  | retList items =>
    by_cases hi : items.isEmpty = true
    · simp [hi] at h
    · cases hp : (processItems fn g 0 items).2 with
      | none => simp [hi, hp] at h
      | some msg => simp [hi, hp]

theorem selectedPairs_filter_ne (checkers : List (String × List (String × Rule)))
    (f : String) (h : f ≠ "") :
    selectedPairs checkers (some f) =
      (flatPairs checkers).filter (fun p => strContainsCI p.1 f) := by
  unfold selectedPairs
  apply List.filter_congr
  intro p _
  unfold skipByFilter
  have hne : (f != "") = true := by
    have : (f == "") = false := beq_eq_false_iff_ne.mpr h
    simp [bne, this]
  simp only [hne]
  cases hc : strContainsCI p.1 f <;> simp [hc]

theorem run_ok_results (o : CheckerOrchestrator) (m : IfcFile) (flt : Option String)
    (cfg : Config) (rep : Report)
    (h : (run o (ModelArg.ifcFile m) flt cfg).2 = Except.ok rep) :
    rep.results = (selectedPairs o.checkers flt).flatMap
      (fun p => keptRecords p.1 p.2.1 (p.2.2 m cfg)) := by
  by_cases he : o.checkers.isEmpty = true
  · rw [run_empty_registry o _ flt cfg he] at h
    simp at h
  · have he' : o.checkers.isEmpty = false := by
      cases hx : o.checkers.isEmpty
      · rfl
      · exact absurd hx he
    rw [run_ifc_eq o m flt cfg he'] at h
    simp only [Except.ok.injEq] at h
    rw [← h]
    rfl

theorem run_ok_summary (o : CheckerOrchestrator) (m : IfcFile) (flt : Option String)
    (cfg : Config) (rep : Report)
    (h : (run o (ModelArg.ifcFile m) flt cfg).2 = Except.ok rep) :
    rep.summary.total_checkers = selLen o.checkers flt ∧
    rep.summary.successful_checkers = selSucc o.checkers flt m cfg ∧
    rep.summary.failed_checkers = selFail o.checkers flt m cfg ∧
    rep.summary.checker_details =
      (selectedPairs o.checkers flt).map (fun p => detailOf p.1 p.2.1 (p.2.2 m cfg)) := by
  by_cases he : o.checkers.isEmpty = true
  · rw [run_empty_registry o _ flt cfg he] at h
    simp at h
  · have he' : o.checkers.isEmpty = false := by
      cases hx : o.checkers.isEmpty
      · rfl
      · exact absurd hx he
    rw [run_ifc_eq o m flt cfg he'] at h
    simp only [Except.ok.injEq] at h
    rw [← h]
    exact ⟨rfl, rfl, rfl, rfl⟩

/-! Concrete fixtures for witnesses and counterexamples. -/

/-- A well-formed result record with all nine required keys. -/
def okRecord : Dict :=
  [("element_id", Val.vnone), ("element_type", Val.str "IfcDoor"),
   ("element_name", Val.str "D1"), ("element_name_long", Val.vnone),
   ("check_status", Val.str "pass"), ("actual_value", Val.str "0.9"),
   ("required_value", Val.str "0.8128"), ("comment", Val.vnone), ("log", Val.vnone)]

/-- A well-formed record carrying an extra rule-supplied key. -/
def extraRecord : Dict := okRecord ++ [("extra", Val.str "x")]

/-- A checker returning one valid record. -/
def ruleOk : Rule := fun _ _ => RuleOutcome.retList [RuleItem.rdict okRecord]

/-- A checker whose first record is valid but whose second element is not a dict. -/
def ruleMixed : Rule := fun _ _ =>
  RuleOutcome.retList [RuleItem.rdict okRecord, RuleItem.notDict "str"]

/-- A checker returning a record with an extra key. -/
def ruleExtra : Rule := fun _ _ => RuleOutcome.retList [RuleItem.rdict extraRecord]

/-- Extract the error message of an `Except`, if any. -/
def errOf {α : Type} (x : Except String α) : Option String :=
  match x with
  | Except.error m => some m
  | Except.ok _ => none

/-- A loadable checker file with one rule. -/
def fA : FileEntry := ⟨"checker_a.py", LoadResult.loaded [("check_a", Member.callable ruleOk)]⟩

/-- A checker file that fails to load. -/
def fBad : FileEntry := ⟨"checker_b.py", LoadResult.loadError "SyntaxError"⟩

/-- A loadable checker file named differently. -/
def fB2 : FileEntry := ⟨"checker_b.py", LoadResult.loaded [("check_b", Member.callable ruleOk)]⟩

/-- An orchestrator whose registry holds a single failing rule. -/
def c1orch : CheckerOrchestrator :=
  ⟨"./tools", [("checker_a.py", [("check_a", ruleMixed)])], ["checker_a.py"], []⟩

/-- An orchestrator whose registry holds one rule emitting an extra key. -/
def c4orch : CheckerOrchestrator :=
  ⟨"./tools", [("checker_e.py", [("check_e", ruleExtra)])], ["checker_e.py"], []⟩

/-- An orchestrator with two modules, for filter tests. -/
def c6orch : CheckerOrchestrator :=
  ⟨"./tools",
   [("checker_doors.py", [("check_doors", ruleOk)]),
    ("checker_walls.py", [("check_walls", ruleOk)])],
   ["checker_doors.py", "checker_walls.py"], []⟩

/-! The claims. -/

/-- C5: run() raises an OrchestratorError before any rule executes and without
producing any Run Report in exactly two precondition cases: empty registry and
a model argument that is not an `ifcopenshell.file`; in all other cases run()
returns a report.  The error cases leave the orchestrator state untouched. -/
theorem run_preconditions :
    ∀ (o : CheckerOrchestrator) (model : ModelArg) (flt : Option String) (cfg : Config),
      (o.checkers = [] →
        run o model flt cfg =
          (o, Except.error "No checkers discovered. Call discover() first.")) ∧
      (o.checkers ≠ [] → ∀ ty, model = ModelArg.notIfc ty →
        run o model flt cfg =
          (o, Except.error "model must be an ifcopenshell.file object")) ∧
      (o.checkers ≠ [] → ∀ m, model = ModelArg.ifcFile m →
        ∃ rep, (run o model flt cfg).2 = Except.ok rep) := by
  intro o model flt cfg
  refine ⟨?_, ?_, ?_⟩
  · intro h
    exact run_empty_registry o model flt cfg (List.isEmpty_iff.mpr h)
  · intro h ty hm
    subst hm
    exact run_wrong_type o ty flt cfg (isEmpty_false_of_ne_nil h)
  · intro h m hm
    subst hm
    rw [run_ifc_eq o m flt cfg (isEmpty_false_of_ne_nil h)]
    exact ⟨_, rfl⟩

/-- C5 witness: the three cases at concrete inputs. -/
theorem run_preconditions_witness :
    run (mkOrchestrator "./tools") (ModelArg.ifcFile ⟨0⟩) none [] =
      (mkOrchestrator "./tools",
       Except.error "No checkers discovered. Call discover() first.") ∧
    run c6orch (ModelArg.notIfc "str") none [] =
      (c6orch, Except.error "model must be an ifcopenshell.file object") ∧
    ∃ rep, (run c6orch (ModelArg.ifcFile ⟨0⟩) none []).2 = Except.ok rep :=
  ⟨(run_preconditions (mkOrchestrator "./tools") (ModelArg.ifcFile ⟨0⟩) none []).1 rfl,
   (run_preconditions c6orch (ModelArg.notIfc "str") none []).2.1
     (List.cons_ne_nil _ _) "str" rfl,
   (run_preconditions c6orch (ModelArg.ifcFile ⟨0⟩) none []).2.2
     (List.cons_ne_nil _ _) ⟨0⟩ rfl⟩

/-- C6: with a non-empty filter string, a rule is invoked if and only if its
module filename contains the filter case-insensitively, and
summary.total_checkers counts exactly the matching (module, rule) pairs. -/
theorem run_filter_selects :
    ∀ (o : CheckerOrchestrator) (m : IfcFile) (cfg : Config) (f : String) (rep : Report),
      f ≠ "" →
      (run o (ModelArg.ifcFile m) (some f) cfg).2 = Except.ok rep →
      rep.summary.total_checkers =
        ((flatPairs o.checkers).filter (fun p => strContainsCI p.1 f)).length ∧
      rep.summary.checker_details.map (fun d => d.checker) =
        ((flatPairs o.checkers).filter (fun p => strContainsCI p.1 f)).map
          (fun p => fullName p.1 p.2.1) := by
  intro o m cfg f rep hf hok
  obtain ⟨ht, _, _, hd⟩ := run_ok_summary o m (some f) cfg rep hok
  constructor
  · rw [ht]
    unfold selLen
    rw [selectedPairs_filter_ne o.checkers f hf]
  · rw [hd, selectedPairs_filter_ne o.checkers f hf]
    simp only [List.map_map]
    apply List.map_congr_left
    intro p _
    exact detailOf_checker p.1 p.2.1 (p.2.2 m cfg)

/-- C6 witness: filtering a two-module registry by "DOORS" runs exactly the
doors module's rule. -/
theorem run_filter_selects_witness :
    ("DOORS" : String) ≠ "" ∧
    (reportOf (run c6orch (ModelArg.ifcFile ⟨0⟩) (some "DOORS") [])).summary.total_checkers =
      ((flatPairs c6orch.checkers).filter
        (fun p => strContainsCI p.1 "DOORS")).length ∧
    (reportOf (run c6orch (ModelArg.ifcFile ⟨0⟩) (some "DOORS") [])).summary.checker_details.map
        (fun d => d.checker) =
      ((flatPairs c6orch.checkers).filter (fun p => strContainsCI p.1 "DOORS")).map
        (fun p => fullName p.1 p.2.1) := by
  refine ⟨by decide, ?_⟩
  exact run_filter_selects c6orch ⟨0⟩ [] "DOORS"
    (reportOf (run c6orch (ModelArg.ifcFile ⟨0⟩) (some "DOORS") [])) (by decide) rfl

/-- C9: filter_results treats an empty-string criterion as absent: the input
comes back unchanged, and records whose check_status is the empty string can
never be selected by the status criterion. -/
theorem filter_results_empty_criterion :
    ∀ results : List Dict,
      filter_results results (some "") none = results ∧
      filter_results results none (some "") = results ∧
      filter_results results (some "") (some "") = results ∧
      (∀ S : String, S ≠ "" → ∀ r ∈ filter_results results (some S) none,
        pyGet r "check_status" ≠ some (Val.str "")) := by
  intro results
  refine ⟨by simp [filter_results], by simp [filter_results], by simp [filter_results], ?_⟩
  intro S hS r hr
  have hSf : (S == "") = false := beq_eq_false_iff_ne.mpr hS
  simp only [filter_results, hSf, Bool.false_eq_true, if_false] at hr
  have heq : pyGet r "check_status" = some (Val.str S) :=
    beq_iff_eq.mp (List.mem_filter.mp hr).2
  intro hcontra
  rw [hcontra] at heq
  injection heq with h1
  injection h1 with h2
  exact hS h2.symm

/-- C9 witness: the empty-string criterion at a concrete record list. -/
theorem filter_results_empty_criterion_witness :
    filter_results [okRecord] (some "") none = [okRecord] ∧
    (∀ r ∈ filter_results [okRecord] (some "pass") none,
      pyGet r "check_status" ≠ some (Val.str "")) :=
  ⟨(filter_results_empty_criterion [okRecord]).1,
   (filter_results_empty_criterion [okRecord]).2.2.2 "pass" (by decide)⟩

/-- C10: the trace log accumulates for the lifetime of the orchestrator:
run() and discover() only append to the log, and the log field of a returned
Run Report is the join of the instance's entire log, so a second run's report
contains the first run's (and discover's) trace lines. -/
theorem log_accumulates :
    (∀ (o : CheckerOrchestrator) (model : ModelArg) (flt : Option String) (cfg : Config),
      ∃ t, (run o model flt cfg).1.executionLog = o.executionLog ++ t) ∧
    (∀ (o : CheckerOrchestrator) (model : ModelArg) (flt : Option String)
       (cfg : Config) (rep : Report),
      (run o model flt cfg).2 = Except.ok rep →
      rep.log = String.intercalate "\n" (run o model flt cfg).1.executionLog) ∧
    (∀ (o : CheckerOrchestrator) (dir : DirState),
      ∃ t, (discover o dir).1.executionLog = o.executionLog ++ t) := by
  refine ⟨?_, ?_, ?_⟩
  · intro o model flt cfg
    by_cases he : o.checkers.isEmpty = true
    · rw [run_empty_registry o model flt cfg he]
      exact ⟨[], by simp⟩
    · have he' : o.checkers.isEmpty = false := by
        cases hx : o.checkers.isEmpty
        · rfl
        · exact absurd hx he
      cases model with
      | notIfc ty =>
        rw [run_wrong_type o ty flt cfg he']
        exact ⟨[], by simp⟩
      | ifcFile m =>
        rw [run_ifc_eq o m flt cfg he']
        refine ⟨["\n" ++ sep70, "ORCHESTRATOR EXECUTION START", sep70] ++
          ((selectedPairs o.checkers flt).flatMap
            (fun p => logLinesOf p.1 p.2.1 (p.2.2 m cfg))) ++
          ["\n" ++ sep70, "ORCHESTRATOR EXECUTION COMPLETE",
           "  Checkers run: " ++ toString (selSucc o.checkers flt m cfg) ++ "/" ++
             toString (selLen o.checkers flt),
           "  Results collected: " ++ toString (selKept o.checkers flt m cfg).length,
           sep70], ?_⟩
        simp [runLog, List.append_assoc]
  · intro o model flt cfg rep h
    by_cases he : o.checkers.isEmpty = true
    · rw [run_empty_registry o model flt cfg he] at h ⊢
      simp at h
    · have he' : o.checkers.isEmpty = false := by
        cases hx : o.checkers.isEmpty
        · rfl
        · exact absurd hx he
      cases model with
      | notIfc ty =>
        rw [run_wrong_type o ty flt cfg he'] at h
        simp at h
      | ifcFile m =>
        rw [run_ifc_eq o m flt cfg he'] at h ⊢
        simp only [Except.ok.injEq] at h
        rw [← h]
  · intro o dir
    exact discover_log o dir

/-- C10 witness: a successful run on a concrete orchestrator only appends to
the log and reports the joined instance-lifetime log. -/
theorem log_accumulates_witness :
    (∃ t, (run c6orch (ModelArg.ifcFile ⟨0⟩) none []).1.executionLog =
      c6orch.executionLog ++ t) ∧
    (reportOf (run c6orch (ModelArg.ifcFile ⟨0⟩) none [])).log =
      String.intercalate "\n" (run c6orch (ModelArg.ifcFile ⟨0⟩) none []).1.executionLog ∧
    (∃ t, (discover (mkOrchestrator "./tools") (some [fA])).1.executionLog =
      (mkOrchestrator "./tools").executionLog ++ t) :=
  ⟨log_accumulates.1 c6orch (ModelArg.ifcFile ⟨0⟩) none [],
   log_accumulates.2.1 c6orch (ModelArg.ifcFile ⟨0⟩) none []
     (reportOf (run c6orch (ModelArg.ifcFile ⟨0⟩) none [])) rfl,
   log_accumulates.2.2 (mkOrchestrator "./tools") (some [fA])⟩

/-- C8: get_summary_by_status maps each observed check_status value to its
occurrence count with an open vocabulary, yields the empty mapping on empty
input, and for every non-empty status S, filter_results selects exactly the
records with that status, with length equal to the summary's count for S. -/
theorem summary_and_filter :
    ∀ results : List Dict,
      (∀ r ∈ results, pyHasKey r "check_status" = true) →
      get_summary_by_status [] = [] ∧
      (∀ v : Val, (dictFind (get_summary_by_status results) v).getD 0 =
        (results.filter (fun r => pyGet r "check_status" == some v)).length) ∧
      (∀ v : Val, dictHasKey (get_summary_by_status results) v =
        results.any (fun r => pyGet r "check_status" == some v)) ∧
      (∀ S : String, S ≠ "" →
        filter_results results (some S) none =
          results.filter (fun r => pyGet r "check_status" == some (Val.str S)) ∧
        (filter_results results (some S) none).length =
          (dictFind (get_summary_by_status results) (Val.str S)).getD 0) := by
  intro results hkeys
  have hcount : ∀ v : Val,
      countStatus results v =
        (results.filter (fun r => pyGet r "check_status" == some v)).length := by
    intro v
    unfold countStatus
    congr 1
    apply List.filter_congr
    intro r hr
    exact statusOf_beq_of_hasKey r v (hkeys r hr)
  have hfr : ∀ S : String, S ≠ "" →
      filter_results results (some S) none =
        results.filter (fun r => pyGet r "check_status" == some (Val.str S)) := by
    intro S hS
    have hSf : (S == "") = false := beq_eq_false_iff_ne.mpr hS
    simp [filter_results, hSf]
  refine ⟨rfl, ?_, ?_, ?_⟩
  · intro v
    rw [get_summary_eq_foldl, foldl_summaryUpd_lookup, ← hcount v, dictFind_nil]
    simp
  · intro v
    rw [get_summary_eq_foldl, foldl_summaryUpd_hasKey]
    have : results.any (fun r => statusOf r == v) =
        results.any (fun r => pyGet r "check_status" == some v) :=
      any_congr _ _ results (fun r hr => statusOf_beq_of_hasKey r v (hkeys r hr))
    rw [this]
    rfl
  · intro S hS
    refine ⟨hfr S hS, ?_⟩
    rw [hfr S hS, get_summary_eq_foldl, foldl_summaryUpd_lookup,
      ← hcount (Val.str S), dictFind_nil]
    simp

/-- C8 witness: the summary/filter agreement at a concrete record list. -/
theorem summary_and_filter_witness :
    get_summary_by_status [] = [] ∧
    (dictFind (get_summary_by_status [okRecord, okRecord]) (Val.str "pass")).getD 0 =
      ([okRecord, okRecord].filter
        (fun r => pyGet r "check_status" == some (Val.str "pass"))).length ∧
    (filter_results [okRecord, okRecord] (some "pass") none).length =
      (dictFind (get_summary_by_status [okRecord, okRecord]) (Val.str "pass")).getD 0 :=
  ⟨(summary_and_filter [okRecord, okRecord] (by decide)).1,
   (summary_and_filter [okRecord, okRecord] (by decide)).2.1 (Val.str "pass"),
   ((summary_and_filter [okRecord, okRecord] (by decide)).2.2.2 "pass" (by decide)).2⟩

/-- C1 (amended): a selected rule whose invocation fails (exception or
validation failure) increments the failed counter by exactly 1, leaves the
success counter unchanged, records a per-rule detail with status "failed" and
the error message, and execution proceeds so run() still returns a Run
Report; however the records validated before the first invalid one have
already been admitted into the results (tagged with provenance) — only the
output from the failing record onward is discarded, not the whole output. -/
theorem failed_rule_isolated :
    ∀ (m : IfcFile) (cfg : Config) (flt : Option String) (st : RunState)
      (fn g : String) (r : Rule),
      skipByFilter flt fn = false →
      outcomeFails fn g (r m cfg) = true →
      runStep m cfg flt st (fn, g, r) =
        ⟨st.allResults ++ keptRecords fn g (r m cfg),
         st.total + 1, st.successful, st.failed + 1,
         st.details ++ [⟨fullName fn g, "failed", none, outcomeErr fn g (r m cfg)⟩],
         st.log ++ logLinesOf fn g (r m cfg)⟩ ∧
      (outcomeErr fn g (r m cfg)).isSome = true ∧
      (∀ o : CheckerOrchestrator, o.checkers ≠ [] →
        ∃ rep, (run o (ModelArg.ifcFile m) flt cfg).2 = Except.ok rep) := by
  intro m cfg flt st fn g r hskip hfail
  refine ⟨?_, hfail, ?_⟩
  · rw [runStep_go m cfg flt st fn g r hskip, hfail,
      detailOf_failed fn g (r m cfg) hfail]
    simp
  · intro o ho
    rw [run_ifc_eq o m flt cfg (isEmpty_false_of_ne_nil ho)]
    exact ⟨_, rfl⟩

/-- C1 counterexample: a rule that returns one valid record followed by a
non-dict fails, yet its valid record appears tagged in the report's results —
refuting that the failing rule's output is discarded entirely. -/
theorem failed_rule_counterexample :
    (reportOf (run c1orch (ModelArg.ifcFile ⟨0⟩) none [])).summary.failed_checkers = 1 ∧
    (reportOf (run c1orch (ModelArg.ifcFile ⟨0⟩) none [])).summary.successful_checkers = 0 ∧
    (reportOf (run c1orch (ModelArg.ifcFile ⟨0⟩) none [])).results.map
      (fun r => pyGet r "_checker_file") = [some (Val.str "checker_a.py")] := by
  decide

/-- C1 witness: the amended per-rule behavior at a concrete failing rule. -/
theorem failed_rule_isolated_witness :
    runStep ⟨0⟩ [] none ⟨[], 0, 0, 0, [], []⟩ ("checker_a.py", "check_a", ruleMixed) =
      ⟨[] ++ keptRecords "checker_a.py" "check_a" (ruleMixed ⟨0⟩ []),
       0 + 1, 0, 0 + 1,
       [] ++ [⟨fullName "checker_a.py" "check_a", "failed", none,
         outcomeErr "checker_a.py" "check_a" (ruleMixed ⟨0⟩ [])⟩],
       [] ++ logLinesOf "checker_a.py" "check_a" (ruleMixed ⟨0⟩ [])⟩ ∧
    (outcomeErr "checker_a.py" "check_a" (ruleMixed ⟨0⟩ [])).isSome = true ∧
    (∀ o : CheckerOrchestrator, o.checkers ≠ [] →
      ∃ rep, (run o (ModelArg.ifcFile ⟨0⟩) none []).2 = Except.ok rep) :=
  failed_rule_isolated ⟨0⟩ [] none ⟨[], 0, 0, 0, [], []⟩ "checker_a.py" "check_a"
    ruleMixed (by decide) (by decide)

/-- C2 (amended): when a rule-bearing file fails to load, discover() raises
OrchestratorError naming that file, but the registry is not rolled back: it
equals the pre-call registry extended by every file processed before the
failing one; only when the failing file is first (or the directory is
missing) is the registry exactly as before the call. -/
theorem discover_failure_keeps_loaded :
    ∀ (o : CheckerOrchestrator) (files pre : List FileEntry) (bad : FileEntry)
      (rest : List FileEntry) (msg : String),
      globSorted files = pre ++ bad :: rest →
      (∀ f ∈ pre, isLoadable f = true) →
      bad.loadResult = LoadResult.loadError msg →
      (discover o (some files)).2 =
        Except.error ("Failed to load " ++ bad.name ++ ": " ++ msg) ∧
      (discover o (some files)).1.checkers = pre.foldl regStep o.checkers := by
  intro o files pre bad rest msg hsplit hpre hbad
  refine ⟨discover_some_err o files pre bad rest msg hsplit hpre hbad, ?_⟩
  rw [discover_some_checkers, hsplit,
    takeWhile_append_stop isLoadable pre bad rest hpre (by simp [isLoadable, hbad])]

/-- C2 counterexample: a directory whose second file fails to load leaves the
first file's rules registered after the failing discover() on a fresh
orchestrator — the registry is not left as it was before the call (empty). -/
theorem discover_failure_counterexample :
    errOf (discover (mkOrchestrator "./tools") (some [fA, fBad])).2 =
      some "Failed to load checker_b.py: SyntaxError" ∧
    registryNames (discover (mkOrchestrator "./tools") (some [fA, fBad])).1 =
      [("checker_a.py", ["check_a"])] ∧
    registryNames (mkOrchestrator "./tools") = [] := by
  decide

/-- C2 witness: the amended statement at the concrete two-file directory. -/
theorem discover_failure_keeps_loaded_witness :
    (discover (mkOrchestrator "./tools") (some [fA, fBad])).2 =
      Except.error ("Failed to load " ++ fBad.name ++ ": " ++ "SyntaxError") ∧
    (discover (mkOrchestrator "./tools") (some [fA, fBad])).1.checkers =
      [fA].foldl regStep (mkOrchestrator "./tools").checkers :=
  discover_failure_keeps_loaded (mkOrchestrator "./tools") [fA, fBad] [fA] fBad []
    "SyntaxError" rfl (by decide) rfl

/-- C3 (amended): a second discover() merges per-module rather than replacing
the registry wholesale: each file found by the new scan overwrites its own
entry, but entries for files no longer present persist.  When the directory
contents are unchanged between the two calls, the merge coincides with
replacement: the second call succeeds and leaves the registry exactly equal to
the first call's registry (what a fresh discover() would produce). -/
theorem rediscover_unchanged :
    ∀ (td : String) (files : List FileEntry),
      (files.map (fun f => f.name)).Nodup →
      (∀ f ∈ globSorted files, isLoadable f = true) →
      (∃ r1, (discover (mkOrchestrator td) (some files)).2 = Except.ok r1) ∧
      (∃ r2, (discover ((discover (mkOrchestrator td) (some files)).1) (some files)).2 =
        Except.ok r2) ∧
      (discover ((discover (mkOrchestrator td) (some files)).1) (some files)).1.checkers =
        (discover (mkOrchestrator td) (some files)).1.checkers := by
  intro td files hnd hload
  have hnd2 : ((globSorted files).map (fun f => f.name)).Nodup :=
    globSorted_names_nodup files hnd
  have htw : (globSorted files).takeWhile isLoadable = globSorted files :=
    takeWhile_all _ _ hload
  have h1 : (discover (mkOrchestrator td) (some files)).1.checkers =
      (globSorted files).filterMap ruleBearing := by
    rw [discover_some_checkers, htw,
      show (mkOrchestrator td).checkers = [] from rfl,
      foldl_regStep_fresh (globSorted files) [] (fun f _ => rfl) hnd2]
    simp
  refine ⟨discover_some_ok _ files hload, discover_some_ok _ files hload, ?_⟩
  rw [discover_some_checkers _ files, htw, h1]
  apply foldl_regStep_id
  · rw [filterMap_ruleBearing_keys]
    exact List.Nodup.sublist (List.Sublist.map _ (List.filter_sublist _)) hnd2
  · intro f hf kv hkv
    exact List.mem_filterMap.mpr ⟨f, hf, hkv⟩

/-- C3 counterexample: with the directory contents changed between the calls
(checker_a.py replaced by checker_b.py), the second discover() keeps the
stale checker_a entry — the registry is merged, not replaced, and differs
from what a fresh discover() over the same directory produces. -/
theorem rediscover_counterexample :
    registryNames
      ((discover ((discover (mkOrchestrator "./tools") (some [fA])).1)
        (some [fB2])).1) =
      [("checker_a.py", ["check_a"]), ("checker_b.py", ["check_b"])] ∧
    registryNames ((discover (mkOrchestrator "./tools") (some [fB2])).1) =
      [("checker_b.py", ["check_b"])] := by
  decide

/-- C3 witness: re-discovery over an unchanged one-file directory. -/
theorem rediscover_unchanged_witness :
    (∃ r1, (discover (mkOrchestrator "./tools") (some [fA])).2 = Except.ok r1) ∧
    (∃ r2, (discover ((discover (mkOrchestrator "./tools") (some [fA])).1)
      (some [fA])).2 = Except.ok r2) ∧
    (discover ((discover (mkOrchestrator "./tools") (some [fA])).1)
      (some [fA])).1.checkers =
      (discover (mkOrchestrator "./tools") (some [fA])).1.checkers :=
  rediscover_unchanged "./tools" [fA] (by decide) (by decide)

/-- C4 (amended): every record in a Run Report's results contains at least the
nine base keys and the two provenance keys; each record comes from a selected
(module, rule) pair and the engine sets its `_checker_file` / `_checker_function`
keys to exactly that module's filename and that rule's name, after the record
passed validation; the record equals the rule's original dict with just those
two keys set, so every other rule-supplied key (including extra keys) is
preserved unchanged — the key set is a superset of, not exactly equal to, the
eleven specified keys. -/
theorem emitted_record_keys :
    ∀ (o : CheckerOrchestrator) (m : IfcFile) (flt : Option String) (cfg : Config)
      (rep : Report),
      (run o (ModelArg.ifcFile m) flt cfg).2 = Except.ok rep →
      ∀ r ∈ rep.results,
        (∀ k ∈ requiredKeys, pyHasKey r k = true) ∧
        pyHasKey r "_checker_file" = true ∧
        pyHasKey r "_checker_function" = true ∧
        ∃ p, p ∈ selectedPairs o.checkers flt ∧
          r ∈ keptRecords p.1 p.2.1 (p.2.2 m cfg) ∧
          pyGet r "_checker_file" = some (Val.str p.1) ∧
          pyGet r "_checker_function" = some (Val.str p.2.1) ∧
          ∃ d : Dict,
            r = pySet (pySet d "_checker_file" (Val.str p.1))
              "_checker_function" (Val.str p.2.1) ∧
            ∀ k : String, k ≠ "_checker_file" → k ≠ "_checker_function" →
              pyGet r k = pyGet d k := by
  intro o m flt cfg rep hok r hr
  rw [run_ok_results o m flt cfg rep hok] at hr
  obtain ⟨p, hp, hrp⟩ := List.mem_flatMap.mp hr
  obtain ⟨hkeys, hcf, hcfn⟩ := keptRecords_mem p.1 p.2.1 (p.2.2 m cfg) r hrp
  obtain ⟨d, hd⟩ := keptRecords_origin p.1 p.2.1 (p.2.2 m cfg) r hrp
  refine ⟨hkeys, ?_, ?_, p, hp, hrp, hcf, hcfn, d, hd, ?_⟩
  · show dictHasKey r "_checker_file" = true
    rw [← dictFind_isSome_eq_hasKey,
      show dictFind r "_checker_file" = pyGet r "_checker_file" from rfl, hcf]
    rfl
  · show dictHasKey r "_checker_function" = true
    rw [← dictFind_isSome_eq_hasKey,
      show dictFind r "_checker_function" = pyGet r "_checker_function" from rfl, hcfn]
    rfl
  · intro k h1 h2
    rw [hd]
    exact pyGet_tagged_other d p.1 p.2.1 k h1 h2

/-- C4 counterexample: a validated record carrying an extra rule-supplied key
appears in the results with twelve keys — its key set is not exactly the nine
base keys plus the two provenance keys. -/
theorem emitted_record_keys_counterexample :
    (reportOf (run c4orch (ModelArg.ifcFile ⟨0⟩) none [])).results.all
      keysMatchEleven = false ∧
    (reportOf (run c4orch (ModelArg.ifcFile ⟨0⟩) none [])).summary.successful_checkers
      = 1 := by
  decide

/-- The first emitted record of the extra-key run, used by the C4 witness. -/
def c4rec : Dict := (reportOf (run c4orch (ModelArg.ifcFile ⟨0⟩) none [])).results.headD []

/-- C4 witness: the amended key and provenance guarantee at the concrete
emitted record of the extra-key run. -/
theorem emitted_record_keys_witness :
    (∀ k ∈ requiredKeys, pyHasKey c4rec k = true) ∧
    pyHasKey c4rec "_checker_file" = true ∧
    pyHasKey c4rec "_checker_function" = true ∧
    ∃ p, p ∈ selectedPairs c4orch.checkers none ∧
      c4rec ∈ keptRecords p.1 p.2.1 (p.2.2 ⟨0⟩ []) ∧
      pyGet c4rec "_checker_file" = some (Val.str p.1) ∧
      pyGet c4rec "_checker_function" = some (Val.str p.2.1) ∧
      ∃ d : Dict,
        c4rec = pySet (pySet d "_checker_file" (Val.str p.1))
          "_checker_function" (Val.str p.2.1) ∧
        ∀ k : String, k ≠ "_checker_file" → k ≠ "_checker_function" →
          pyGet c4rec k = pyGet d k :=
  emitted_record_keys c4orch ⟨0⟩ none []
    (reportOf (run c4orch (ModelArg.ifcFile ⟨0⟩) none [])) rfl c4rec (by decide)

/-- C7: a Run Report's results are deterministically ordered: the
concatenation, over modules in registry order and rules in discovery order,
of each selected rule's admitted records in emission order; a fresh
discover() lists modules in lexicographically sorted filename order; and two
runs over equal registries against the same model yield identical results. -/
theorem results_ordering :
    (∀ (o : CheckerOrchestrator) (m : IfcFile) (flt : Option String)
       (cfg : Config) (rep : Report),
      (run o (ModelArg.ifcFile m) flt cfg).2 = Except.ok rep →
      rep.results = (selectedPairs o.checkers flt).flatMap
        (fun p => keptRecords p.1 p.2.1 (p.2.2 m cfg))) ∧
    (∀ (td : String) (files : List FileEntry),
      (files.map (fun f => f.name)).Nodup →
      (∀ f ∈ globSorted files, isLoadable f = true) →
      ((discover (mkOrchestrator td) (some files)).1.checkers).Pairwise
        (fun a b => strLe a.1 b.1 = true)) ∧
    (∀ (o1 o2 : CheckerOrchestrator) (m : IfcFile) (flt : Option String)
       (cfg : Config),
      o1.checkers = o2.checkers →
      (reportOf (run o1 (ModelArg.ifcFile m) flt cfg)).results =
        (reportOf (run o2 (ModelArg.ifcFile m) flt cfg)).results) := by
  refine ⟨?_, ?_, ?_⟩
  · intro o m flt cfg rep hok
    exact run_ok_results o m flt cfg rep hok
  · intro td files hnd hload
    rw [discover_some_checkers, takeWhile_all _ _ hload,
      show (mkOrchestrator td).checkers = [] from rfl,
      foldl_regStep_fresh (globSorted files) [] (fun f _ => rfl)
        (globSorted_names_nodup files hnd),
      List.nil_append]
    have hnames : ((globSorted files).map (fun f => f.name)).Pairwise
        (fun a b => strLe a b = true) :=
      List.pairwise_map.mpr (globSorted_pairwise files)
    have hkp : (((globSorted files).filterMap ruleBearing).map
        (fun p => p.1)).Pairwise (fun a b => strLe a b = true) := by
      rw [filterMap_ruleBearing_keys]
      exact List.Pairwise.sublist
        (List.Sublist.map _ (List.filter_sublist _)) hnames
    exact List.pairwise_map.mp hkp
  · intro o1 o2 m flt cfg h
    by_cases he : o1.checkers.isEmpty = true
    · have he2 : o2.checkers.isEmpty = true := by rw [← h]; exact he
      rw [run_empty_registry o1 _ flt cfg he, run_empty_registry o2 _ flt cfg he2]
      rfl
    · have he' : o1.checkers.isEmpty = false := by
        cases hx : o1.checkers.isEmpty
        · rfl
        · exact absurd hx he
      have he2 : o2.checkers.isEmpty = false := by rw [← h]; exact he'
      rw [run_ifc_eq o1 m flt cfg he', run_ifc_eq o2 m flt cfg he2]
      simp only [reportOf]
      rw [h]

/-- C7 witness: the three ordering guarantees at concrete inputs. -/
theorem results_ordering_witness :
    (reportOf (run c6orch (ModelArg.ifcFile ⟨0⟩) none [])).results =
      (selectedPairs c6orch.checkers none).flatMap
        (fun p => keptRecords p.1 p.2.1 (p.2.2 ⟨0⟩ [])) ∧
    ((discover (mkOrchestrator "./tools") (some [fB2, fA])).1.checkers).Pairwise
      (fun a b => strLe a.1 b.1 = true) ∧
    (reportOf (run c6orch (ModelArg.ifcFile ⟨0⟩) none [])).results =
      (reportOf (run c6orch (ModelArg.ifcFile ⟨0⟩) none [])).results :=
  ⟨results_ordering.1 c6orch ⟨0⟩ none []
     (reportOf (run c6orch (ModelArg.ifcFile ⟨0⟩) none [])) rfl,
   results_ordering.2.1 "./tools" [fB2, fA] (by decide) (by decide),
   results_ordering.2.2 c6orch c6orch ⟨0⟩ none [] rfl⟩
